import Mathlib

/-!
# Snaproom logging collector: a shallow embedding and its verified properties

The development embeds the collection loop of the collector
(`internal/collect/collect.go`), the metric recording helpers
(`internal/exporter/metrics.go`) and the configuration loader
(`cmd/collector/main.go`) as pure functions with explicit state.

Modelling conventions.

* The Prometheus registry is represented by the chronological history of the
  writes made to it (`MetricOp`); current values are read off that history.
* `float64` values are represented by the rationals they stand for. The
  roundings of the collector's arithmetic (conversion of an integer, product)
  are to the nearest value of 53 significant bits, ties to the even
  significand; the exponent range is not modelled, all values that occur lie
  far inside it.
* Go's `int` is taken to be 64 bits wide; `time.Duration` arithmetic wraps
  modulo `2^64`.
* The outside world (random source, clock, filesystem, map iteration order)
  is an oracle `World`; the positions already consumed are part of `State`.
* Calls to the diagnostic logger only write to the log sink and never alter
  control flow; they are left out.
* Go strings are represented by Lean strings. The fragments searched for are
  ASCII, for which occurrence byte by byte and character by character agree
  on well-formed UTF-8.
-/

set_option autoImplicit false

namespace Snaproom

/-! ## Strings -/

/-- Whether the character list `p` is an initial segment of `s`. -/
def startsWith : List Char → List Char → Bool
  | _, [] => true
  | [], _ :: _ => false
  | c :: s, d :: p => c == d && startsWith s p

/-- Whether `sub` occurs somewhere inside `s` (on character lists). -/
def containsChars : List Char → List Char → Bool
  | [], sub => startsWith [] sub
  | c :: s, sub => startsWith (c :: s) sub || containsChars s sub

/-- Go `strings.Contains`. -/
def stringsContains (s substr : String) : Bool :=
  containsChars s.data substr.data

/-- Go `strings.HasSuffix`. -/
def stringsHasSuffix (s suffix : String) : Bool :=
  startsWith s.data.reverse suffix.data.reverse

/-- The mathematical meaning of "the name ends in the suffix". -/
def EndsWith (suffix name : String) : Prop :=
  ∃ stem : List Char, name.data = stem ++ suffix.data

/-- The mathematical meaning of "the path contains the fragment". -/
def Occurs (frag path : String) : Prop :=
  ∃ a b : List Char, path.data = a ++ frag.data ++ b

/-- `determineServiceFromPath` of `collect.go`. -/
def determineServiceFromPath (path : String) : String :=
  if stringsContains path "laravel" then
    "snaproom-laravel"
  else if stringsContains path "react" then
    "snaproom-react"
  else if stringsContains path "collector" then
    "collector"
  else
    "unknown"

/-! ## Metrics (`exporter/metrics.go`) -/

/-- One write to the metrics registry. -/
inductive MetricOp where
  | counterAdd (name : String) (labels : List String) (delta : ℚ)
  | gaugeSet (name : String) (labels : List String) (value : ℚ)
  | observe (name : String) (labels : List String) (value : ℚ)
  deriving DecidableEq

/-- Name of `LogsCollectedTotal`. -/
def logsCollectedTotal : String := "snaproom_logs_collected_total"
/-- Name of `LogProcessingDuration`. -/
def logProcessingDuration : String := "snaproom_log_processing_duration_seconds"
/-- Name of `LogFileSizeBytes`. -/
def logFileSizeBytes : String := "snaproom_log_file_size_bytes"
/-- Name of `LogErrorsTotal`. -/
def logErrorsTotal : String := "snaproom_log_errors_total"
/-- Name of `CollectorUptime`. -/
def collectorUptime : String := "snaproom_collector_uptime_seconds"
/-- Name of `MyCounter`. -/
def myCounter : String := "snaproom_collector_cycles_total"
/-- Name of `MyGauge`. -/
def myGauge : String := "snaproom_collector_random_value"

/-- The mutable state threaded through the collector: the history of metric
writes, and how much of each oracle of the `World` has been consumed.
`statLog` lists the paths handed to `os.Stat`, oldest first. -/
structure State where
  ops : List MetricOp
  randPos : Nat
  clockPos : Nat
  statLog : List String
  rangePos : Nat

/-- Append one write to the history. -/
def State.record (s : State) (op : MetricOp) : State :=
  { s with ops := s.ops ++ [op] }

/-- `RecordLogCollection`. -/
def RecordLogCollection (service level : String) (count : ℚ) (s : State) : State :=
  s.record (.counterAdd logsCollectedTotal [service, level] count)

/-- `RecordLogProcessingTime`. -/
def RecordLogProcessingTime (service : String) (duration : ℚ) (s : State) : State :=
  s.record (.observe logProcessingDuration [service] duration)

/-- `UpdateLogFileSize`. -/
def UpdateLogFileSize (service filename : String) (size : ℚ) (s : State) : State :=
  s.record (.gaugeSet logFileSizeBytes [service, filename] size)

/-- `RecordLogError`: `Inc()` adds one. -/
def RecordLogError (service errorType : String) (s : State) : State :=
  s.record (.counterAdd logErrorsTotal [service, errorType] 1)

/-- `UpdateUptime`. -/
def UpdateUptime (seconds : ℚ) (s : State) : State :=
  s.record (.gaugeSet collectorUptime [] seconds)

/-- Current value of a gauge series: the value of the last `Set`, if any. -/
def gaugeValue (name : String) (labels : List String) (ops : List MetricOp) : Option ℚ :=
  ops.foldl
    (fun acc op =>
      match op with
      | .gaugeSet n l v => if n = name ∧ l = labels then some v else acc
      | _ => acc)
    none

/-- Number of `Add`/`Inc` calls made on the counter family `name`. -/
def counterAdds (name : String) (ops : List MetricOp) : Nat :=
  ops.countP
    (fun op =>
      match op with
      | .counterAdd n _ _ => n == name
      | _ => false)

/-- Number of `Observe` calls on the histogram series `name` / `labels`. -/
def observations (name : String) (labels : List String) (ops : List MetricOp) : Nat :=
  ops.countP
    (fun op =>
      match op with
      | .observe n l _ => n == name && l == labels
      | _ => false)

/-! ## Errors, the filesystem and `filepath.Walk` -/

/-- Go `error` values that occur in the collector. -/
inductive GoError where
  /-- an error reported by the operating system for a filesystem call -/
  | os (msg : String)
  /-- the sentinel `filepath.SkipDir` -/
  | skipDir
  /-- the sentinel `filepath.SkipAll` -/
  | skipAll
  /-- the value built by `collectLogMetrics`:
  `"log collection had %d errors, last error: %w"` -/
  | collectionErrors (errorCount : Nat) (lastError : Option GoError)
  /-- the value built by `cycle`: `"log metrics collection failed: %w"` -/
  | cycleFailed (inner : GoError)

/-- Whether an error is the sentinel `filepath.SkipDir`. -/
def GoError.isSkipDir : GoError → Bool
  | .skipDir => true
  | _ => false

/-- Whether an error is the sentinel `filepath.SkipAll`. -/
def GoError.isSkipAll : GoError → Bool
  | .skipAll => true
  | _ => false

/-- The part of `os.FileInfo` that the collector reads. -/
structure FileInfo where
  name : String
  size : Int
  isDir : Bool
  deriving DecidableEq

mutual
/-- What `filepath.Walk` finds at a path. `path` is the string handed to the
callback, `name` is `info.Name()`. -/
inductive FsNode where
  /-- `lstat` succeeds and the entry is not a directory -/
  | file (path name : String) (size : Int)
  /-- `lstat` succeeds and the entry is a symbolic link, which `lstat` does
  not report as a directory; `target` is what the link points to, and
  `filepath.Walk` does not follow it -/
  | symlink (path name : String) (size : Int) (target : FsNode)
  /-- `lstat` succeeds, the entry is a directory and its names can be read;
  `children` are its entries in the order `readDirNames` yields them -/
  | dir (path name : String) (size : Int) (children : FsList)
  /-- `lstat` succeeds, the entry is a directory, reading its names fails -/
  | unreadableDir (path name : String) (size : Int) (err : String)
  /-- `lstat` on the path fails -/
  | lstatFail (path : String) (err : String)
/-- The entries of a directory. -/
inductive FsList where
  | nil
  | cons (head : FsNode) (tail : FsList)
end

/-- Whether `lstat` succeeded with `IsDir()` true. -/
def FsNode.isDir : FsNode → Bool
  | .dir _ _ _ _ => true
  | .unreadableDir _ _ _ _ => true
  | _ => false

/-- Whether `lstat` on the node failed. -/
def FsNode.lstatFailed : FsNode → Bool
  | .lstatFail _ _ => true
  | _ => false

/-- The outcome of `os.Stat` on a path. -/
inductive StatResult where
  /-- the call succeeds: something exists at the path (links are followed) -/
  | found
  /-- the call fails with `ENOENT`, "no such file or directory" -/
  | enoent
  /-- the call fails with `ENOTDIR`, "not a directory": a component of the
  directory part of the path is not a directory, so nothing exists at the
  path -/
  | enotdir
  /-- the call fails with another error, such as `EACCES` -/
  | failed (msg : String)
  deriving DecidableEq

/-- `os.IsNotExist(err)` for the error of the call: of the error numbers it
holds for `ENOENT` only. -/
def StatResult.isNotExist : StatResult → Bool
  | .enoent => true
  | _ => false

/-- Nothing exists at the path. -/
def StatResult.pathMissing : StatResult → Bool
  | .enoent => true
  | .enotdir => true
  | _ => false

/-- The filesystem as one source attempt sees it. -/
structure FileSystem where
  /-- the outcome of `os.Stat(path)` -/
  stat : String → StatResult
  /-- what `filepath.Walk(path, ...)` finds at and below `path` -/
  lstatTree : String → FsNode

/-- `os.IsNotExist(err)` for the `err` returned by `os.Stat(path)`. -/
def FileSystem.statNotExist (fs : FileSystem) (path : String) : Bool :=
  (fs.stat path).isNotExist

/-- The type `filepath.WalkFunc`, over a state `σ`. The Go arguments
`(info, err)` are merged: `.error err` stands for `err != nil` (the callbacks
of the collector do not look at `info` then), `.ok info` for `err == nil`. -/
abbrev WalkFunc (σ : Type) := String → Except GoError FileInfo → σ → Option GoError × σ

/-- Whether the loop over the names of a directory returns `err` after the
visit of the child `child` ended with `err`: for a child whose `lstat` failed
the test is `err != SkipDir`, otherwise `!fileInfo.IsDir() || err != SkipDir`. -/
def stopsLoop (child : FsNode) (err : GoError) : Bool :=
  if child.lstatFailed then !err.isSkipDir else !child.isDir || !err.isSkipDir

mutual
/-- Go `filepath.walk`; on a node whose `lstat` failed it is the call
`walkFn(filename, fileInfo, err)` that `Walk` and the loop of `walk` make. -/
def walk {σ : Type} (fn : WalkFunc σ) : FsNode → σ → Option GoError × σ
  | .file path name size, s => fn path (.ok ⟨name, size, false⟩) s
  | .symlink path name size _, s => fn path (.ok ⟨name, size, false⟩) s
  | .unreadableDir path _ _ err, s => fn path (.error (.os err)) s
  | .lstatFail path err, s => fn path (.error (.os err)) s
  | .dir path name size children, s =>
    match fn path (.ok ⟨name, size, true⟩) s with
    | (some err1, s1) => (some err1, s1)
    | (none, s1) => walkNames fn children s1
/-- The loop `for _, name := range names` of `filepath.walk`. -/
def walkNames {σ : Type} (fn : WalkFunc σ) : FsList → σ → Option GoError × σ
  | .nil, s => (none, s)
  | .cons child rest, s =>
    match walk fn child s with
    | (some err, s1) =>
      if stopsLoop child err then (some err, s1) else walkNames fn rest s1
    | (none, s1) => walkNames fn rest s1
end

/-- Go `filepath.Walk`. -/
def Walk {σ : Type} (root : FsNode) (fn : WalkFunc σ) (s : σ) : Option GoError × σ :=
  match walk fn root s with
  | (some err, s1) => if err.isSkipDir || err.isSkipAll then (none, s1) else (some err, s1)
  | (none, s1) => (none, s1)

/-! ## `float64` arithmetic -/

/-- The number of bits by which `m` exceeds 53 significant bits: the least
`e` with `m < 2 ^ (53 + e)`. The first argument bounds the search; the number
itself always suffices. -/
def excessBits : Nat → Nat → Nat
  | 0, _ => 0
  | fuel + 1, m => if m < 2 ^ 53 then 0 else excessBits fuel (m / 2) + 1

/-- Rounding of a natural number to 53 significant bits: to the nearest such
number, a tie going to the even significand. -/
def roundSig53 (m : Nat) : Nat :=
  if 2 * (m % 2 ^ excessBits m m) < 2 ^ excessBits m m then
    m / 2 ^ excessBits m m * 2 ^ excessBits m m
  else if 2 * (m % 2 ^ excessBits m m) = 2 ^ excessBits m m ∧
      (m / 2 ^ excessBits m m) % 2 = 0 then
    m / 2 ^ excessBits m m * 2 ^ excessBits m m
  else
    (m / 2 ^ excessBits m m + 1) * 2 ^ excessBits m m

/-- Go's conversion `float64(n)` of an integer. -/
def float64OfInt (n : Int) : ℚ :=
  if n < 0 then -((roundSig53 n.natAbs : Nat) : ℚ) else ((roundSig53 n.natAbs : Nat) : ℚ)

/-- The `float64` nearest to the exact result `x` of an operation on
`float64` values. Such a result is a fraction whose denominator is a power of
two, so rounding it is rounding its numerator. -/
def roundFloat64 (x : ℚ) : ℚ :=
  float64OfInt x.num / (x.den : ℚ)

/-! ## The outside world -/

/-- The oracles the collector consults. -/
structure World where
  /-- the raw words of the pseudo-random source, in the order drawn -/
  rand : Nat → Nat
  /-- the successive readings of the clock, in seconds -/
  clock : Nat → ℚ
  /-- the package variable `startTime` -/
  startTime : ℚ
  /-- the filesystem as seen by the n-th source attempt -/
  fs : Nat → FileSystem
  /-- the order in which the n-th `range serviceLogPaths` yields the map -/
  rangeOrder : Nat → List (String × String)

/-- The value `rand.Float64()` returns when the source stands at position
`pos`. The method computes `float64(r.Int63()) / (1 << 63)` and draws again
while the quotient is 1, which is the case exactly for the words from
`2^63 - 512` on; the oracle supplies the word of the round that is kept. -/
def float64At (w : World) (pos : Nat) : ℚ :=
  float64OfInt ((w.rand pos % (2 ^ 63 - 512) : Nat) : Int) / 2 ^ 63

/-- `rand.Float64()`. -/
def randFloat64 (w : World) (s : State) : ℚ × State :=
  (float64At w s.randPos, { s with randPos := s.randPos + 1 })

/-- `rand.Intn(n)` for `n > 0`: a value in `[0, n)`. -/
def randIntn (w : World) (n : Nat) (s : State) : Nat × State :=
  (w.rand s.randPos % n, { s with randPos := s.randPos + 1 })

/-- `time.Now()`, in seconds. -/
def timeNow (w : World) (s : State) : ℚ × State :=
  (w.clock s.clockPos, { s with clockPos := s.clockPos + 1 })

/-! ## `collect.go` -/

/-- The package variable `logDirs`. -/
def logDirs : List String := ["./logs", "/logs"]

/-- The package variable `serviceLogPaths` (a map; listed in source order). -/
def serviceLogPaths : List (String × String) :=
  [("snaproom-laravel", "/logs/laravel"), ("snaproom-react", "/logs/react"),
   ("collector", "./logs")]

/-- The slice `levels` of `collectServiceLogs`. -/
def levels : List String := ["info", "warn", "error", "debug"]

/-- What the callback of `collectServiceLogs` does with a log file. The index
drawn by `rand.Intn(len(levels))` is always within the slice, so the default
of `getD` is never used. -/
def processServiceFile (w : World) (service : String) (info : FileInfo) (s : State) : State :=
  let s := UpdateLogFileSize service info.name (float64OfInt info.size) s
  let (r, s) := randFloat64 w s
  let logCount := roundFloat64 (r * 10)
  let (i, s) := randIntn w levels.length s
  let level := levels.getD i ""
  RecordLogCollection service level logCount s

/-- The callback passed to `filepath.Walk` by `collectServiceLogs`. -/
def serviceWalkFn (w : World) (service : String) : WalkFunc State :=
  fun _path arg s =>
    match arg with
    | .error err => (some err, s)
    | .ok info =>
      if !info.isDir && stringsHasSuffix info.name ".log" then
        (none, processServiceFile w service info s)
      else
        (none, s)

/-- `collectServiceLogs`. -/
def collectServiceLogs (w : World) (service logPath : String) (s : State) :
    Option GoError × State :=
  let fs := w.fs s.statLog.length
  let s := { s with statLog := s.statLog ++ [logPath] }
  if fs.statNotExist logPath then
    (none, s)
  else
    Walk (fs.lstatTree logPath) (serviceWalkFn w service) s

/-- What the callback of `collectDirectoryLogs` does with a log file. -/
def processDirectoryFile (w : World) (path : String) (info : FileInfo) (s : State) : State :=
  let service := determineServiceFromPath path
  let s := UpdateLogFileSize service info.name (float64OfInt info.size) s
  let (r, s) := randFloat64 w s
  let logCount := roundFloat64 (r * 5)
  let level := "info"
  RecordLogCollection service level logCount s

/-- The callback passed to `filepath.Walk` by `collectDirectoryLogs`. -/
def directoryWalkFn (w : World) : WalkFunc State :=
  fun path arg s =>
    match arg with
    | .error err => (some err, s)
    | .ok info =>
      if !info.isDir && stringsHasSuffix info.name ".log" then
        (none, processDirectoryFile w path info s)
      else
        (none, s)

/-- `collectDirectoryLogs`. -/
def collectDirectoryLogs (w : World) (logDir : String) (s : State) :
    Option GoError × State :=
  let fs := w.fs s.statLog.length
  let s := { s with statLog := s.statLog ++ [logDir] }
  if fs.statNotExist logDir then
    (none, s)
  else
    Walk (fs.lstatTree logDir) (directoryWalkFn w) s

/-- The local variables of `collectLogMetrics` together with the state. -/
structure Tally where
  lastError : Option GoError
  errorCount : Nat
  st : State

/-- Body of the loop `for service, logPath := range serviceLogPaths`. -/
def serviceLoopBody (w : World) (t : Tally) (entry : String × String) : Tally :=
  match collectServiceLogs w entry.1 entry.2 t.st with
  | (some err, s) =>
    { lastError := some err, errorCount := t.errorCount + 1,
      st := RecordLogError entry.1 "collection_error" s }
  | (none, s) => { t with st := s }

/-- Body of the loop `for _, logDir := range logDirs`. -/
def directoryLoopBody (w : World) (t : Tally) (logDir : String) : Tally :=
  match collectDirectoryLogs w logDir t.st with
  | (some err, s) =>
    { lastError := some err, errorCount := t.errorCount + 1,
      st := RecordLogError "collector" "directory_error" s }
  | (none, s) => { t with st := s }

/-- The two loops of `collectLogMetrics`, over the map in the order `order`. -/
def collectLoops (w : World) (order : List (String × String)) (s : State) : Tally :=
  let t : Tally := { lastError := none, errorCount := 0, st := s }
  let t := order.foldl (serviceLoopBody w) t
  logDirs.foldl (directoryLoopBody w) t

/-- `collectLogMetrics`. -/
def collectLogMetrics (w : World) (s : State) : Option GoError × State :=
  let order := w.rangeOrder s.rangePos
  let s := { s with rangePos := s.rangePos + 1 }
  let t := collectLoops w order s
  if t.errorCount > 0 then
    (some (.collectionErrors t.errorCount t.lastError), t.st)
  else
    (none, t.st)

/-- `cycle`. -/
def cycle (w : World) (s : State) : Option GoError × State :=
  let (startCycle, s) := timeNow w s
  let (now, s) := timeNow w s
  let uptime := now - w.startTime
  let s := UpdateUptime uptime s
  let s := s.record (.counterAdd myCounter [] 1)
  let (random, s) := randFloat64 w s
  let s := s.record (.gaugeSet myGauge [] random)
  match collectLogMetrics w s with
  | (some err, s) => (some (.cycleFailed err), s)
  | (none, s) =>
    let (now, s) := timeNow w s
    let cycleTime := now - startCycle
    (none, RecordLogProcessingTime "collector" cycleTime s)

/-- What the `select` of the scheduler loop receives. -/
inductive Event where
  /-- a value arrived on `ticker.C` -/
  | tick
  /-- `ctx.Done()` is closed -/
  | done
  deriving DecidableEq

/-- How far `StartCollectingWithContext` got on a finite sequence of events. -/
inductive Outcome where
  /-- `time.NewTicker` panicked, with the message given -/
  | panicked (msg : String)
  /-- the loop took the `ctx.Done()` case and the function returned -/
  | returned
  /-- the loop is in its running state, blocked in `select` -/
  | running
  deriving DecidableEq

/-- The `case <-ticker.C` branch of the scheduler loop. -/
def onTick (w : World) (s : State) : State :=
  match cycle w s with
  | (some _, s1) => RecordLogError "collector" "cycle_error" s1
  | (none, s1) => s1

/-- The `for { select { ... } }` loop of `StartCollectingWithContext`. -/
def schedulerLoop (w : World) : List Event → State → Outcome × State
  | [], s => (.running, s)
  | .done :: _, s => (.returned, s)
  | .tick :: rest, s => schedulerLoop w rest (onTick w s)

/-- Two's-complement wrap-around of a 64-bit signed integer. -/
def int64Wrap (x : Int) : Int :=
  (x + 2 ^ 63) % 2 ^ 64 - 2 ^ 63

/-- The constant `time.Second`, in nanoseconds. -/
def timeSecond : Int := 1000000000

/-- The expression `time.Second * time.Duration(interval)`. -/
def tickerPeriod (interval : Int) : Int :=
  int64Wrap (timeSecond * int64Wrap interval)

/-- `StartCollectingWithContext`, on the events its loop receives.
`time.NewTicker(d)` panics when `d <= 0`. -/
def StartCollectingWithContext (w : World) (interval : Int) (events : List Event)
    (s : State) : Outcome × State :=
  if tickerPeriod interval ≤ 0 then
    (.panicked "non-positive interval for NewTicker", s)
  else
    schedulerLoop w events s

/-- Number of collection cycles started so far: each call of `cycle` adds
one to `MyCounter`, and nothing else writes to it. -/
def cyclesRun (s : State) : Nat :=
  counterAdds myCounter s.ops

/-! ## `cmd/collector/main.go` -/

/-- The package variable `defaultPort`. -/
def defaultPort : Int := 8080

/-- The package variable `defaultCycleInterval`. -/
def defaultCycleInterval : Int := 10

/-- The struct `Config`. -/
structure Config where
  Port : Int
  CycleInterval : Int
  deriving DecidableEq

/-- Whether a character is a decimal digit. -/
def isDecimalDigit (c : Char) : Bool :=
  48 ≤ c.toNat && c.toNat ≤ 57

/-- Value of a string of decimal digits. -/
def digitsValue (ds : List Char) : Nat :=
  ds.foldl (fun n c => n * 10 + (c.toNat - 48)) 0

/-- Go `strconv.Atoi` for a 64-bit `int`; `none` stands for a non-nil error
(bad syntax or a value out of range). An optional sign is followed by one or
more decimal digits. -/
def Atoi (str : String) : Option Int :=
  match str.data with
  | [] => none
  | c :: rest =>
    let digits := if c == '-' || c == '+' then rest else c :: rest
    if digits.isEmpty || !digits.all isDecimalDigit then
      none
    else if c == '-' then
      if digitsValue digits ≤ 2 ^ 63 then some (-(digitsValue digits : Int)) else none
    else
      if digitsValue digits < 2 ^ 63 then some (digitsValue digits : Int) else none

/-- `loadConfig`; `getenv` is `os.Getenv`, which yields the empty string for
an unset variable. -/
def loadConfig (getenv : String → String) : Config :=
  let config : Config := { Port := defaultPort, CycleInterval := defaultCycleInterval }
  let portStr := getenv "METRICS_PORT"
  let config :=
    if portStr ≠ "" then
      match Atoi portStr with
      | none => config
      | some port => { config with Port := port }
    else config
  let intervalStr := getenv "CYCLE_INTERVAL"
  let config :=
    if intervalStr ≠ "" then
      match Atoi intervalStr with
      | none => config
      | some interval => { config with CycleInterval := interval }
    else config
  config

/-! ## Decimal integers -/

/-- The characters `ds`, at least one, are ASCII decimal digits, the most
significant first, and denote the natural number `m`. -/
inductive DigitsDenote : List Char → Nat → Prop where
  | one (c : Char) (d : Nat) : c.toNat = 48 + d → d < 10 → DigitsDenote [c] d
  | more (ds : List Char) (m : Nat) (c : Char) (d : Nat) :
      DigitsDenote ds m → c.toNat = 48 + d → d < 10 → DigitsDenote (ds ++ [c]) (10 * m + d)

/-- The string is a decimal integer, an optional sign `+` or `-` followed by
digits, and denotes `n`. -/
def Denotes (str : String) (n : Int) : Prop :=
  ∃ (ds : List Char) (m : Nat), DigitsDenote ds m ∧
    ((str.data = ds ∧ n = (m : Int)) ∨
     (str.data = '+' :: ds ∧ n = (m : Int)) ∨
     (str.data = '-' :: ds ∧ n = -(m : Int)))

/-! ## Specification-level views of the filesystem and of the metric writes -/

mutual
/-- The entries the traversal of a node reaches before its first error, in
the order visited, and that error if there is one. -/
def FsNode.scan : FsNode → List (String × FileInfo) × Option String
  | .file path name size => ([(path, ⟨name, size, false⟩)], none)
  | .symlink path name size _ => ([(path, ⟨name, size, false⟩)], none)
  | .unreadableDir _ _ _ err => ([], some err)
  | .lstatFail _ err => ([], some err)
  | .dir path name size children =>
    ((path, ⟨name, size, true⟩) :: children.scan.1, children.scan.2)
/-- The same for the entries of a directory. -/
def FsList.scan : FsList → List (String × FileInfo) × Option String
  | .nil => ([], none)
  | .cons child rest =>
    match child.scan with
    | (vs, some e) => (vs, some e)
    | (vs, none) => (vs ++ rest.scan.1, rest.scan.2)
end

mutual
/-- All entries at and below a node, at any depth, parents first; what lies
behind a symbolic link is not below it. -/
def FsNode.entries : FsNode → List (String × FileInfo)
  | .file path name size => [(path, ⟨name, size, false⟩)]
  | .symlink path name size _ => [(path, ⟨name, size, false⟩)]
  | .unreadableDir path name size _ => [(path, ⟨name, size, true⟩)]
  | .lstatFail _ _ => []
  | .dir path name size children => (path, ⟨name, size, true⟩) :: children.entries
/-- All entries at and below the members of a directory. -/
def FsList.entries : FsList → List (String × FileInfo)
  | .nil => []
  | .cons child rest => child.entries ++ rest.entries
end

mutual
/-- No filesystem call fails at or below the node. -/
def FsNode.traversable : FsNode → Bool
  | .file _ _ _ => true
  | .symlink _ _ _ _ => true
  | .unreadableDir _ _ _ _ => false
  | .lstatFail _ _ => false
  | .dir _ _ _ children => children.traversable
/-- No filesystem call fails at or below the members of a directory. -/
def FsList.traversable : FsList → Bool
  | .nil => true
  | .cons child rest => child.traversable && rest.traversable
end

/-- The test `!info.IsDir() && strings.HasSuffix(info.Name(), ".log")`. -/
def isLogFile (info : FileInfo) : Bool :=
  !info.isDir && stringsHasSuffix info.name ".log"

/-- The error with which the traversal of a source ends, if it fails. -/
def sourceError (fs : FileSystem) (path : String) : Option String :=
  if fs.statNotExist path then none else (fs.lstatTree path).scan.2

/-- The log files the traversal of a source reaches. -/
def visitedLogFiles (fs : FileSystem) (path : String) : List (String × FileInfo) :=
  if fs.statNotExist path then []
  else (fs.lstatTree path).scan.1.filter (fun v => isLogFile v.2)

/-- The writes of `collectServiceLogs` for the given log files, the random
source standing at position `pos`. -/
def serviceFileOps (w : World) (service : String) : Nat → List (String × FileInfo) → List MetricOp
  | _, [] => []
  | pos, v :: rest =>
    .gaugeSet logFileSizeBytes [service, v.2.name] (float64OfInt v.2.size) ::
    .counterAdd logsCollectedTotal [service, levels.getD (w.rand (pos + 1) % 4) ""]
      (roundFloat64 (float64At w pos * 10)) ::
    serviceFileOps w service (pos + 2) rest

/-- The writes of `collectDirectoryLogs` for the given log files, the random
source standing at position `pos`. -/
def directoryFileOps (w : World) : Nat → List (String × FileInfo) → List MetricOp
  | _, [] => []
  | pos, v :: rest =>
    .gaugeSet logFileSizeBytes [determineServiceFromPath v.1, v.2.name]
      (float64OfInt v.2.size) ::
    .counterAdd logsCollectedTotal [determineServiceFromPath v.1, "info"]
      (roundFloat64 (float64At w pos * 5)) ::
    directoryFileOps w (pos + 1) rest

/-- Writes to the file-size gauge and to the collection counter. -/
def MetricOp.isFileMetric : MetricOp → Bool
  | .gaugeSet n _ _ => n == logFileSizeBytes
  | .counterAdd n _ _ => n == logsCollectedTotal
  | .observe _ _ _ => false

/-- Writes to the error counter `LogErrorsTotal`. -/
def MetricOp.isErrorCount : MetricOp → Bool
  | .counterAdd n _ _ => n == logErrorsTotal
  | _ => false

/-- The errors of the sources that fail, in iteration order; the k-th
attempt sees the filesystem `w.fs k`. -/
def failures (w : World) : Nat → List String → List GoError
  | _, [] => []
  | k, path :: rest =>
    match sourceError (w.fs k) path with
    | some e => .os e :: failures w (k + 1) rest
    | none => failures w (k + 1) rest

/-- The error-counter increments expected from the loop over the named
services, the first attempt being the k-th. -/
def serviceErrorOps (w : World) : Nat → List (String × String) → List MetricOp
  | _, [] => []
  | k, entry :: rest =>
    match sourceError (w.fs k) entry.2 with
    | some _ =>
      .counterAdd logErrorsTotal [entry.1, "collection_error"] 1 ::
        serviceErrorOps w (k + 1) rest
    | none => serviceErrorOps w (k + 1) rest

/-- The error-counter increments expected from the loop over the raw
directories, the first attempt being the k-th. -/
def directoryErrorOps (w : World) : Nat → List String → List MetricOp
  | _, [] => []
  | k, path :: rest =>
    match sourceError (w.fs k) path with
    | some _ =>
      .counterAdd logErrorsTotal ["collector", "directory_error"] 1 ::
        directoryErrorOps w (k + 1) rest
    | none => directoryErrorOps w (k + 1) rest

/-! ## Concrete worlds used to exercise the definitions -/

/-- The state of a freshly started process. -/
def freshState : State :=
  { ops := [], randPos := 0, clockPos := 0, statLog := [], rangePos := 0 }

/-- A filesystem on which no path exists. -/
def emptyFs : FileSystem :=
  { stat := fun _ => .enoent, lstatTree := fun p => .lstatFail p "no such file or directory" }

/-- A filesystem on which every path exists but cannot be examined. -/
def deniedFs : FileSystem :=
  { stat := fun _ => .failed "permission denied",
    lstatTree := fun p => .lstatFail p "permission denied" }

/-- A filesystem on which every path is a directory holding the single file
`app.log` of 1024 bytes. -/
def appLogFs : FileSystem :=
  { stat := fun _ => .found,
    lstatTree := fun p => .dir p "root" 4096 (.cons (.file (p ++ "/app.log") "app.log" 1024) .nil) }

/-- A filesystem on which `/logs` is a regular file, so that nothing exists at
`/logs/laravel` and `/logs/react` (a call on them fails with `ENOTDIR`), and
on which `./logs` does not exist. -/
def fileAtLogsFs : FileSystem :=
  { stat := fun p =>
      if p = "/logs" then .found else if p = "./logs" then .enoent else .enotdir,
    lstatTree := fun p =>
      if p = "/logs" then .file "/logs" "logs" 0
      else if p = "./logs" then .lstatFail p "no such file or directory"
      else .lstatFail p ("lstat " ++ p ++ ": not a directory") }

/-- A filesystem on which every path is a directory holding the single file
`app.log` of `2^53 + 1` bytes. -/
def bigFileFs : FileSystem :=
  { stat := fun _ => .found,
    lstatTree := fun p =>
      .dir p "root" 4096 (.cons (.file (p ++ "/app.log") "app.log" 9007199254740993) .nil) }

/-- A filesystem on which every path is a symbolic link to the directory
`/srv/logs`, which holds the single file `app.log` of 1024 bytes. -/
def linkedFs : FileSystem :=
  { stat := fun _ => .found,
    lstatTree := fun p =>
      .symlink p "link" 9
        (.dir "/srv/logs" "logs" 4096 (.cons (.file "/srv/logs/app.log" "app.log" 1024) .nil)) }

/-- A world in which no source exists. -/
def quietWorld : World :=
  { rand := fun _ => 0, clock := fun n => (n : ℚ), startTime := 0,
    fs := fun _ => emptyFs, rangeOrder := fun _ => serviceLogPaths }

/-- A world in which every source exists and every traversal fails. -/
def deniedWorld : World :=
  { quietWorld with fs := fun _ => deniedFs }

/-- A world in which only the fourth source attempted, the raw directory
`./logs`, exists, and its traversal fails. -/
def directoryDeniedWorld : World :=
  { quietWorld with fs := fun k => if k = 3 then deniedFs else emptyFs }

/-- A world in which `/logs` is a regular file. -/
def fileAtLogsWorld : World :=
  { quietWorld with fs := fun _ => fileAtLogsFs }

/-- A world in which every source holds one file of `2^53 + 1` bytes. -/
def bigFileWorld : World :=
  { quietWorld with fs := fun _ => bigFileFs }

/-- A world in which the root of every source is a symbolic link. -/
def linkedWorld : World :=
  { quietWorld with fs := fun _ => linkedFs }

/-- A world in which every source holds the single file `app.log`. -/
def appLogWorld : World :=
  { quietWorld with fs := fun _ => appLogFs }

/-- A `WalkFunc` that hands back any error it is given and otherwise applies
`g` and goes on: the shape of both callbacks of `collect.go`. -/
def propagating (g : String → FileInfo → State → State) : WalkFunc State :=
  fun path arg s =>
    match arg with
    | .error err => (some err, s)
    | .ok info => (none, g path info s)

/-! ## Counter series -/

/-- Modelled from the spec: the counter of the metrics store, which is code of
the Prometheus client library and not of this repository, "supports only add
non-negative delta" and "fails with `InvalidArgument`" on a negative one (the
library panics). This is the test for that failure on one write. -/
def MetricOp.rejected : MetricOp → Bool
  | .counterAdd _ _ delta => decide (delta < 0)
  | _ => false

/-- Current value of a counter series: the sum of the deltas added to it. -/
def counterValue (name : String) (labels : List String) : List MetricOp → ℚ
  | [] => 0
  | .counterAdd n l delta :: rest =>
    (if n = name ∧ l = labels then delta else 0) + counterValue name labels rest
  | .gaugeSet _ _ _ :: rest => counterValue name labels rest
  | .observe _ _ _ :: rest => counterValue name labels rest

/-- The history of `s2` is that of `s1` followed by writes none of which the
counter rejects. -/
def GrowsSafely (s1 s2 : State) : Prop :=
  ∃ extra, s2.ops = s1.ops ++ extra ∧ ∀ op ∈ extra, op.rejected = false

/-! ## Lemmas on strings -/

theorem startsWith_iff (s p : List Char) :
    startsWith s p = true ↔ ∃ b, s = p ++ b := by
  induction p generalizing s with
  | nil => simp [startsWith]
  | cons d p ih =>
    cases s with
    | nil => simp [startsWith]
    | cons c s =>
      simp only [startsWith, Bool.and_eq_true, beq_iff_eq, ih, List.cons_append,
        List.cons.injEq]
      constructor
      · rintro ⟨h, b, hb⟩
        exact ⟨b, h, hb⟩
      · rintro ⟨b, h, hb⟩
        exact ⟨h, b, hb⟩

theorem containsChars_iff (s sub : List Char) :
    containsChars s sub = true ↔ ∃ a b, s = a ++ sub ++ b := by
  induction s with
  | nil =>
    simp only [containsChars, startsWith_iff]
    constructor
    · rintro ⟨b, hb⟩
      exact ⟨[], b, by simpa using hb⟩
    · rintro ⟨a, b, hab⟩
      have h1 : a = [] := by
        cases a with
        | nil => rfl
        | cons x a => simp at hab
      subst h1
      exact ⟨b, by simpa using hab⟩
  | cons c s ih =>
    simp only [containsChars, Bool.or_eq_true, startsWith_iff, ih]
    constructor
    · rintro (⟨b, hb⟩ | ⟨a, b, hab⟩)
      · exact ⟨[], b, by simpa using hb⟩
      · exact ⟨c :: a, b, by simp [hab]⟩
    · rintro ⟨a, b, hab⟩
      cases a with
      | nil => exact Or.inl ⟨b, by simpa using hab⟩
      | cons x a =>
        simp only [List.cons_append, List.cons.injEq] at hab
        exact Or.inr ⟨a, b, by simpa using hab.2⟩

theorem stringsContains_iff (path frag : String) :
    stringsContains path frag = true ↔ Occurs frag path := by
  simp [stringsContains, Occurs, containsChars_iff]

theorem stringsHasSuffix_iff (name suffix : String) :
    stringsHasSuffix name suffix = true ↔ EndsWith suffix name := by
  unfold stringsHasSuffix EndsWith
  rw [startsWith_iff]
  constructor
  · rintro ⟨b, hb⟩
    refine ⟨b.reverse, ?_⟩
    have := congrArg List.reverse hb
    simpa using this
  · rintro ⟨stem, hstem⟩
    exact ⟨stem.reverse, by simp [hstem]⟩

/-! ## Lemmas on `strconv.Atoi` -/

theorem isDecimalDigit_iff (c : Char) :
    isDecimalDigit c = true ↔ ∃ d, c.toNat = 48 + d ∧ d < 10 := by
  unfold isDecimalDigit
  simp only [Bool.and_eq_true, decide_eq_true_eq]
  constructor
  · rintro ⟨h1, h2⟩
    exact ⟨c.toNat - 48, by omega, by omega⟩
  · rintro ⟨d, h1, h2⟩
    omega

theorem digitsValue_snoc (ds : List Char) (c : Char) :
    digitsValue (ds ++ [c]) = digitsValue ds * 10 + (c.toNat - 48) := by
  simp [digitsValue, List.foldl_append]

theorem DigitsDenote.facts {ds : List Char} {m : Nat} (h : DigitsDenote ds m) :
    ds ≠ [] ∧ ds.all isDecimalDigit = true ∧ digitsValue ds = m := by
  induction h with
  | one c d hc hd =>
    refine ⟨by simp, ?_, ?_⟩
    · simp only [List.all_cons, List.all_nil, Bool.and_true]
      exact (isDecimalDigit_iff c).mpr ⟨d, hc, hd⟩
    · simp [digitsValue]
      omega
  | more ds m c d _ hc hd ih =>
    obtain ⟨_, hall, hval⟩ := ih
    refine ⟨by simp, ?_, ?_⟩
    · simp only [List.all_append, hall, List.all_cons, List.all_nil, Bool.and_true,
        Bool.true_and]
      exact (isDecimalDigit_iff c).mpr ⟨d, hc, hd⟩
    · rw [digitsValue_snoc, hval]
      omega

theorem DigitsDenote.of_facts :
    ∀ (ds : List Char), ds ≠ [] → ds.all isDecimalDigit = true →
      DigitsDenote ds (digitsValue ds) := by
  intro ds
  induction ds using List.reverseRecOn with
  | nil => intro h; exact absurd rfl h
  | append_singleton l c ih =>
    intro _ hall
    simp only [List.all_append, List.all_cons, List.all_nil, Bool.and_true,
      Bool.and_eq_true] at hall
    obtain ⟨d, hc, hd⟩ := (isDecimalDigit_iff c).mp hall.2
    by_cases hl : l = []
    · subst hl
      have hv : digitsValue ([] ++ [c]) = d := by
        simp [digitsValue]
        omega
      rw [hv]
      exact DigitsDenote.one c d hc hd
    · have h1 := ih hl hall.1
      have hv : digitsValue (l ++ [c]) = 10 * digitsValue l + d := by
        rw [digitsValue_snoc]
        omega
      rw [hv]
      exact DigitsDenote.more l _ c d h1 hc hd

theorem Atoi_cons (str : String) (c : Char) (rest : List Char) (hd : str.data = c :: rest) :
    Atoi str =
      if (if c == '-' || c == '+' then rest else c :: rest).isEmpty ||
          !(if c == '-' || c == '+' then rest else c :: rest).all isDecimalDigit then
        none
      else if c == '-' then
        if digitsValue (if c == '-' || c == '+' then rest else c :: rest) ≤ 2 ^ 63 then
          some (-(digitsValue (if c == '-' || c == '+' then rest else c :: rest) : Int))
        else none
      else
        if digitsValue (if c == '-' || c == '+' then rest else c :: rest) < 2 ^ 63 then
          some (digitsValue (if c == '-' || c == '+' then rest else c :: rest) : Int)
        else none := by
  unfold Atoi
  rw [hd]

theorem not_sign_of_digit (c : Char) (h : isDecimalDigit c = true) : c ≠ '-' ∧ c ≠ '+' := by
  constructor <;>
  · intro hc
    subst hc
    revert h
    decide

theorem Atoi_sound (str : String) (n : Int) (h : Atoi str = some n) :
    Denotes str n ∧ -(2 ^ 63) ≤ n ∧ n < 2 ^ 63 := by
  cases hd : str.data with
  | nil =>
    unfold Atoi at h
    rw [hd] at h
    simp at h
  | cons c rest =>
    rw [Atoi_cons str c rest hd] at h
    by_cases hminus : c = '-'
    · subst hminus
      simp only [beq_self_eq_true, Bool.true_or, if_true] at h
      split at h
      · simp at h
      · rename_i hok
        simp only [Bool.or_eq_true, Bool.not_eq_true', not_or, Bool.not_eq_false,
          List.isEmpty_iff] at hok
        split at h
        · rename_i hle
          simp only [Option.some.injEq] at h
          have hdd := DigitsDenote.of_facts rest hok.1 hok.2
          refine ⟨⟨rest, _, hdd, Or.inr (Or.inr ⟨hd, h.symm⟩)⟩, ?_, ?_⟩
          · rw [← h]
            have : ((digitsValue rest : Nat) : Int) ≤ 2 ^ 63 := by exact_mod_cast hle
            omega
          · rw [← h]
            have : (0 : Int) ≤ ((digitsValue rest : Nat) : Int) := Int.ofNat_nonneg _
            omega
        · simp at h
    · by_cases hplus : c = '+'
      · subst hplus
        have hne : (('+' : Char) == '-') = false := by decide
        simp only [beq_self_eq_true, Bool.or_true, if_true, hne, Bool.false_eq_true,
          if_false] at h
        split at h
        · simp at h
        · rename_i hok
          simp only [Bool.or_eq_true, Bool.not_eq_true', not_or, Bool.not_eq_false,
            List.isEmpty_iff] at hok
          split at h
          · rename_i hlt
            simp only [Option.some.injEq] at h
            have hdd := DigitsDenote.of_facts rest hok.1 hok.2
            refine ⟨⟨rest, _, hdd, Or.inr (Or.inl ⟨hd, h.symm⟩)⟩, ?_, ?_⟩
            · rw [← h]
              have : (0 : Int) ≤ ((digitsValue rest : Nat) : Int) := Int.ofNat_nonneg _
              omega
            · rw [← h]
              exact_mod_cast hlt
          · simp at h
      · have h1 : (c == '-') = false := by simpa using hminus
        have h2 : (c == '+') = false := by simpa using hplus
        simp only [h1, h2, Bool.or_self, Bool.false_eq_true, if_false] at h
        split at h
        · simp at h
        · rename_i hok
          simp only [Bool.or_eq_true, Bool.not_eq_true', not_or, Bool.not_eq_false,
            List.isEmpty_iff] at hok
          split at h
          · rename_i hlt
            simp only [Option.some.injEq] at h
            have hdd := DigitsDenote.of_facts (c :: rest) hok.1 hok.2
            refine ⟨⟨c :: rest, _, hdd, Or.inl ⟨hd, h.symm⟩⟩, ?_, ?_⟩
            · rw [← h]
              have : (0 : Int) ≤ ((digitsValue (c :: rest) : Nat) : Int) := Int.ofNat_nonneg _
              omega
            · rw [← h]
              exact_mod_cast hlt
          · simp at h

theorem Atoi_complete (str : String) (n : Int) (h : Denotes str n)
    (hlo : -(2 ^ 63) ≤ n) (hhi : n < 2 ^ 63) : Atoi str = some n := by
  obtain ⟨ds, m, hdd, hcase⟩ := h
  obtain ⟨hne, hall, hval⟩ := hdd.facts
  rcases hcase with ⟨hd, hn⟩ | ⟨hd, hn⟩ | ⟨hd, hn⟩
  · cases ds with
    | nil => exact absurd rfl hne
    | cons c rest =>
      have hc : isDecimalDigit c = true := by
        simp only [List.all_cons, Bool.and_eq_true] at hall
        exact hall.1
      obtain ⟨hm, hp⟩ := not_sign_of_digit c hc
      have h1 : (c == '-') = false := by simpa using hm
      have h2 : (c == '+') = false := by simpa using hp
      rw [Atoi_cons str c rest hd]
      have hlt : digitsValue (c :: rest) < 2 ^ 63 := by
        rw [hval]
        have : (m : Int) < 2 ^ 63 := by rw [← hn]; exact hhi
        exact_mod_cast this
      simp only [h1, h2, Bool.or_self, Bool.false_eq_true, if_false, List.isEmpty_cons,
        hall, Bool.not_true, hval, hn]
      rw [hval] at hlt
      rw [if_pos hlt]
  · have hne2 : (('+' : Char) == '-') = false := by decide
    rw [Atoi_cons str '+' ds hd]
    have hlt : digitsValue ds < 2 ^ 63 := by
      rw [hval]
      have : (m : Int) < 2 ^ 63 := by rw [← hn]; exact hhi
      exact_mod_cast this
    have hemp : ds.isEmpty = false := by
      cases ds with
      | nil => exact absurd rfl hne
      | cons c rest => rfl
    simp only [beq_self_eq_true, Bool.or_true, if_true, hemp, hall, Bool.not_true,
      Bool.or_self, Bool.false_eq_true, if_false, hne2, hval, hn]
    rw [hval] at hlt
    rw [if_pos hlt]
  · rw [Atoi_cons str '-' ds hd]
    have hle : digitsValue ds ≤ 2 ^ 63 := by
      rw [hval]
      have : (m : Int) ≤ 2 ^ 63 := by omega
      exact_mod_cast this
    have hemp : ds.isEmpty = false := by
      cases ds with
      | nil => exact absurd rfl hne
      | cons c rest => rfl
    simp only [beq_self_eq_true, Bool.true_or, if_true, hemp, hall, Bool.not_true,
      Bool.or_self, Bool.false_eq_true, if_false, hval, hn]
    rw [hval] at hle
    rw [if_pos hle]

theorem loadConfig_interval (getenv : String → String) :
    (loadConfig getenv).CycleInterval =
      (if getenv "CYCLE_INTERVAL" = "" then 10
       else (Atoi (getenv "CYCLE_INTERVAL")).getD 10) := by
  unfold loadConfig
  by_cases h1 : getenv "METRICS_PORT" = "" <;>
  by_cases h2 : getenv "CYCLE_INTERVAL" = "" <;>
  cases h3 : Atoi (getenv "METRICS_PORT") <;>
  cases h4 : Atoi (getenv "CYCLE_INTERVAL") <;>
  simp [h1, h2, h3, h4, defaultPort, defaultCycleInterval]

theorem loadConfig_port (getenv : String → String) :
    (loadConfig getenv).Port =
      (if getenv "METRICS_PORT" = "" then 8080
       else (Atoi (getenv "METRICS_PORT")).getD 8080) := by
  unfold loadConfig
  by_cases h1 : getenv "METRICS_PORT" = "" <;>
  by_cases h2 : getenv "CYCLE_INTERVAL" = "" <;>
  cases h3 : Atoi (getenv "METRICS_PORT") <;>
  cases h4 : Atoi (getenv "CYCLE_INTERVAL") <;>
  simp [h1, h2, h3, h4, defaultPort, defaultCycleInterval]

theorem Atoi_empty : Atoi "" = none := rfl

/-- What a variable yields: the integer it denotes if that fits a 64-bit
`int`, the default otherwise. -/
theorem getD_Atoi (str : String) (dflt : Int) :
    (∀ n, Denotes str n → -(2 ^ 63) ≤ n → n < 2 ^ 63 →
      (if str = "" then dflt else (Atoi str).getD dflt) = n) ∧
    ((∀ n, Denotes str n → n < -(2 ^ 63) ∨ 2 ^ 63 ≤ n) →
      (if str = "" then dflt else (Atoi str).getD dflt) = dflt) := by
  constructor
  · intro n hden hlo hhi
    have ha := Atoi_complete str n hden hlo hhi
    have hne : str ≠ "" := by
      intro he
      rw [he, Atoi_empty] at ha
      exact Option.noConfusion ha
    rw [if_neg hne, ha]
    rfl
  · intro hout
    by_cases he : str = ""
    · rw [if_pos he]
    · rw [if_neg he]
      cases ha : Atoi str with
      | none => rfl
      | some n =>
        obtain ⟨hden, hlo, hhi⟩ := Atoi_sound str n ha
        rcases hout n hden with h | h <;> omega

/-! ## Lemmas on `float64` arithmetic -/

theorem excessBits_spec : ∀ (fuel m : Nat), m < 2 ^ 53 * 2 ^ fuel →
    (excessBits fuel m = 0 ∧ m < 2 ^ 53) ∨
    (1 ≤ excessBits fuel m ∧ 2 ^ (52 + excessBits fuel m) ≤ m ∧
      m < 2 ^ (53 + excessBits fuel m))
  | 0, m, h => by
    left
    exact ⟨rfl, by simpa using h⟩
  | fuel + 1, m, h => by
    unfold excessBits
    by_cases hm : m < 2 ^ 53
    · left
      rw [if_pos hm]
      exact ⟨rfl, hm⟩
    · right
      simp only [hm, if_false]
      have hdiv : m / 2 < 2 ^ 53 * 2 ^ fuel := by
        rw [Nat.div_lt_iff_lt_mul (by decide)]
        calc m < 2 ^ 53 * 2 ^ (fuel + 1) := h
          _ = 2 ^ 53 * 2 ^ fuel * 2 := by rw [pow_succ]; ring
      rcases excessBits_spec fuel (m / 2) hdiv with ⟨h0, hlt⟩ | ⟨h1, hlo, hhi⟩
      · rw [h0]
        refine ⟨le_refl _, ?_, ?_⟩
        · simpa using Nat.le_of_not_lt hm
        · omega
      · refine ⟨by omega, ?_, ?_⟩
        · have := (Nat.le_div_iff_mul_le (by decide : 0 < 2)).mp hlo
          calc 2 ^ (52 + (excessBits fuel (m / 2) + 1))
              = 2 ^ (52 + excessBits fuel (m / 2)) * 2 := by rw [← Nat.add_assoc, pow_succ]
            _ ≤ m := this
        · have := (Nat.div_lt_iff_lt_mul (by decide : 0 < 2)).mp hhi
          calc m < 2 ^ (53 + excessBits fuel (m / 2)) * 2 := this
            _ = 2 ^ (53 + (excessBits fuel (m / 2) + 1)) := by rw [← Nat.add_assoc, pow_succ]

theorem lt_fuel (m : Nat) : m < 2 ^ 53 * 2 ^ m := by
  have h1 : m < 2 ^ m := Nat.lt_two_pow m
  have h2 : 2 ^ m ≤ 2 ^ 53 * 2 ^ m := Nat.le_mul_of_pos_left _ (by positivity)
  omega

theorem roundSig53_of_lt (m : Nat) (h : m < 2 ^ 53) : roundSig53 m = m := by
  have he : excessBits m m = 0 := by
    cases m with
    | zero => rfl
    | succ k =>
      unfold excessBits
      simp only [h, if_true]
  simp [roundSig53, he, Nat.mod_one]

theorem roundSig53_lt (v : Nat) (hv : v < 2 ^ 63 - 512) : roundSig53 v < 2 ^ 63 := by
  rcases excessBits_spec v v (lt_fuel v) with ⟨h0, hlt⟩ | ⟨h1, hlo, hhi⟩
  · rw [roundSig53_of_lt v hlt]
    omega
  · have he : excessBits v v ≤ 10 := by
      have h63 : 2 ^ (52 + excessBits v v) < 2 ^ 63 := by omega
      have := (Nat.pow_lt_pow_iff_right (by decide : 1 < 2)).mp h63
      omega
    unfold roundSig53
    generalize excessBits v v = e at h1 hlo hhi he
    interval_cases e <;> norm_num at hlo hhi ⊢ <;> split_ifs <;> omega

theorem float64OfInt_natCast (m : Nat) : float64OfInt (m : Int) = (roundSig53 m : ℚ) := by
  unfold float64OfInt
  have h : ¬ ((m : Int) < 0) := by omega
  simp [h]

theorem float64OfInt_nonneg (n : Int) (h : 0 ≤ n) : 0 ≤ float64OfInt n := by
  unfold float64OfInt
  have hn : ¬ (n < 0) := by omega
  rw [if_neg hn]
  positivity

/-- The conversion is exact up to `2 ^ 53` in magnitude. -/
theorem float64OfInt_exact (n : Int) (h : n.natAbs ≤ 2 ^ 53) : float64OfInt n = (n : ℚ) := by
  have hr : ∀ k : Nat, k ≤ 2 ^ 53 → roundSig53 k = k := by
    intro k hk
    rcases Nat.lt_or_ge k (2 ^ 53) with hlt | hge
    · exact roundSig53_of_lt _ hlt
    · have he : k = 2 ^ 53 := le_antisymm hk hge
      rw [he]
      decide
  obtain ⟨k, rfl | rfl⟩ := Int.eq_nat_or_neg n
  · rw [float64OfInt_natCast, hr k (by simpa using h)]
    simp
  · have hk : k ≤ 2 ^ 53 := by simpa using h
    unfold float64OfInt
    by_cases hn : (-(k : Int)) < 0
    · rw [if_pos hn]
      simp [hr k hk]
    · rw [if_neg hn]
      have h0 : k = 0 := by omega
      subst h0
      simp [hr 0 (by norm_num)]

theorem roundFloat64_nonneg (x : ℚ) (h : 0 ≤ x) : 0 ≤ roundFloat64 x := by
  unfold roundFloat64
  have hnum : 0 ≤ x.num := Rat.num_nonneg.mpr h
  have := float64OfInt_nonneg x.num hnum
  positivity

theorem float64At_range (w : World) (pos : Nat) :
    0 ≤ float64At w pos ∧ float64At w pos < 1 := by
  unfold float64At
  rw [float64OfInt_natCast]
  have hlt : w.rand pos % (2 ^ 63 - 512) < 2 ^ 63 - 512 := Nat.mod_lt _ (by norm_num)
  have hr := roundSig53_lt _ hlt
  have hq : ((roundSig53 (w.rand pos % (2 ^ 63 - 512)) : Nat) : ℚ) < 2 ^ 63 := by
    exact_mod_cast hr
  constructor
  · positivity
  · rw [div_lt_one (by positivity)]
    exact hq

/-! ## Lemmas on the traversal -/

mutual
theorem walk_propagating (g : String → FileInfo → State → State) :
    ∀ (t : FsNode) (s : State),
      walk (propagating g) t s =
        (t.scan.2.map GoError.os, t.scan.1.foldl (fun s v => g v.1 v.2 s) s)
  | .file _ _ _, s => by simp [walk, propagating, FsNode.scan]
  | .symlink _ _ _ _, s => by simp [walk, propagating, FsNode.scan]
  | .unreadableDir _ _ _ _, s => by simp [walk, propagating, FsNode.scan]
  | .lstatFail _ _, s => by simp [walk, propagating, FsNode.scan]
  | .dir path name size children, s => by
    have ih := walkNames_propagating g children (g path ⟨name, size, true⟩ s)
    simp only [walk, propagating, FsNode.scan, List.foldl_cons]
    exact ih
theorem walkNames_propagating (g : String → FileInfo → State → State) :
    ∀ (l : FsList) (s : State),
      walkNames (propagating g) l s =
        (l.scan.2.map GoError.os, l.scan.1.foldl (fun s v => g v.1 v.2 s) s)
  | .nil, s => by simp [walkNames, FsList.scan]
  | .cons child rest, s => by
    have ih1 := walk_propagating g child s
    have ih2 := walkNames_propagating g rest
      (child.scan.1.foldl (fun s v => g v.1 v.2 s) s)
    simp only [walkNames, FsList.scan, ih1]
    cases hsc : child.scan with
    | mk vs e =>
      cases e with
      | some e =>
        cases hc : child.lstatFailed <;> simp [stopsLoop, GoError.isSkipDir, hc]
      | none =>
        rw [hsc] at ih2
        simp only [Option.map_none', List.foldl_append]
        exact ih2
end

theorem Walk_propagating (g : String → FileInfo → State → State) (t : FsNode) (s : State) :
    Walk t (propagating g) s =
      (t.scan.2.map GoError.os, t.scan.1.foldl (fun s v => g v.1 v.2 s) s) := by
  unfold Walk
  rw [walk_propagating]
  cases t.scan.2 <;> simp [GoError.isSkipDir, GoError.isSkipAll]

theorem serviceWalkFn_eq (w : World) (service : String) :
    serviceWalkFn w service =
      propagating (fun _ info s =>
        if isLogFile info then processServiceFile w service info s else s) := by
  funext path arg s
  cases arg with
  | error e => rfl
  | ok info =>
    simp only [serviceWalkFn, propagating, isLogFile]
    split <;> rfl

theorem directoryWalkFn_eq (w : World) :
    directoryWalkFn w =
      propagating (fun path info s =>
        if isLogFile info then processDirectoryFile w path info s else s) := by
  funext path arg s
  cases arg with
  | error e => rfl
  | ok info =>
    simp only [directoryWalkFn, propagating, isLogFile]
    split <;> rfl

theorem foldl_service (w : World) (service : String) :
    ∀ (vs : List (String × FileInfo)) (s : State),
      vs.foldl (fun s v =>
          if isLogFile v.2 then processServiceFile w service v.2 s else s) s =
        { s with
          ops := s.ops ++ serviceFileOps w service s.randPos
            (vs.filter (fun v => isLogFile v.2)),
          randPos := s.randPos + 2 * (vs.filter (fun v => isLogFile v.2)).length }
  | [], s => by simp [serviceFileOps]
  | v :: vs, s => by
    simp only [List.foldl_cons]
    rw [foldl_service w service vs]
    by_cases h : isLogFile v.2 = true
    · simp [h, processServiceFile, UpdateLogFileSize, RecordLogCollection, State.record,
        randFloat64, randIntn, serviceFileOps, levels]
      omega
    · simp [h]

theorem foldl_directory (w : World) :
    ∀ (vs : List (String × FileInfo)) (s : State),
      vs.foldl (fun s v =>
          if isLogFile v.2 then processDirectoryFile w v.1 v.2 s else s) s =
        { s with
          ops := s.ops ++ directoryFileOps w s.randPos
            (vs.filter (fun v => isLogFile v.2)),
          randPos := s.randPos + (vs.filter (fun v => isLogFile v.2)).length }
  | [], s => by simp [directoryFileOps]
  | v :: vs, s => by
    simp only [List.foldl_cons]
    rw [foldl_directory w vs]
    by_cases h : isLogFile v.2 = true
    · simp [h, processDirectoryFile, UpdateLogFileSize, RecordLogCollection, State.record,
        randFloat64, directoryFileOps]
      omega
    · simp [h]

theorem collectServiceLogs_eq (w : World) (service logPath : String) (s : State) :
    collectServiceLogs w service logPath s =
      ((sourceError (w.fs s.statLog.length) logPath).map GoError.os,
        { s with
          ops := s.ops ++ serviceFileOps w service s.randPos
            (visitedLogFiles (w.fs s.statLog.length) logPath),
          randPos := s.randPos + 2 * (visitedLogFiles (w.fs s.statLog.length) logPath).length,
          statLog := s.statLog ++ [logPath] }) := by
  unfold collectServiceLogs sourceError visitedLogFiles
  by_cases h : (w.fs s.statLog.length).statNotExist logPath = true
  · simp [h, serviceFileOps]
  · simp only [h, if_false, Bool.false_eq_true]
    rw [serviceWalkFn_eq, Walk_propagating, foldl_service]

theorem collectDirectoryLogs_eq (w : World) (logDir : String) (s : State) :
    collectDirectoryLogs w logDir s =
      ((sourceError (w.fs s.statLog.length) logDir).map GoError.os,
        { s with
          ops := s.ops ++ directoryFileOps w s.randPos
            (visitedLogFiles (w.fs s.statLog.length) logDir),
          randPos := s.randPos + (visitedLogFiles (w.fs s.statLog.length) logDir).length,
          statLog := s.statLog ++ [logDir] }) := by
  unfold collectDirectoryLogs sourceError visitedLogFiles
  by_cases h : (w.fs s.statLog.length).statNotExist logDir = true
  · simp [h, directoryFileOps]
  · simp only [h, if_false, Bool.false_eq_true]
    rw [directoryWalkFn_eq, Walk_propagating, foldl_directory]

theorem serviceFileOps_isFileMetric (w : World) (service : String) :
    ∀ (vs : List (String × FileInfo)) (pos : Nat),
      ∀ op ∈ serviceFileOps w service pos vs, op.isFileMetric = true
  | [], pos => by simp [serviceFileOps]
  | v :: vs, pos => by
    intro op hop
    simp only [serviceFileOps, List.mem_cons] at hop
    rcases hop with h | h | h
    · subst h; simp [MetricOp.isFileMetric]
    · subst h; simp [MetricOp.isFileMetric]
    · exact serviceFileOps_isFileMetric w service vs (pos + 2) op h

theorem directoryFileOps_isFileMetric (w : World) :
    ∀ (vs : List (String × FileInfo)) (pos : Nat),
      ∀ op ∈ directoryFileOps w pos vs, op.isFileMetric = true
  | [], pos => by simp [directoryFileOps]
  | v :: vs, pos => by
    intro op hop
    simp only [directoryFileOps, List.mem_cons] at hop
    rcases hop with h | h | h
    · subst h; simp [MetricOp.isFileMetric]
    · subst h; simp [MetricOp.isFileMetric]
    · exact directoryFileOps_isFileMetric w vs (pos + 1) op h

theorem filter_eq_nil_of_fileMetric (q : MetricOp → Bool)
    (hq : ∀ op, op.isFileMetric = true → q op = false) (l : List MetricOp)
    (hl : ∀ op ∈ l, op.isFileMetric = true) : l.filter q = [] := by
  rw [List.filter_eq_nil_iff]
  intro op hop
  simp [hq op (hl op hop)]

/-! ## Lemmas on the loops of `collectLogMetrics` -/

theorem serviceLoopBody_eq (w : World) (t : Tally) (entry : String × String) :
    serviceLoopBody w t entry =
      match sourceError (w.fs t.st.statLog.length) entry.2 with
      | some e =>
        { lastError := some (.os e), errorCount := t.errorCount + 1,
          st := RecordLogError entry.1 "collection_error" (collectServiceLogs w entry.1 entry.2 t.st).2 }
      | none => { t with st := (collectServiceLogs w entry.1 entry.2 t.st).2 } := by
  unfold serviceLoopBody
  rw [collectServiceLogs_eq]
  cases sourceError (w.fs t.st.statLog.length) entry.2 <;> rfl

theorem directoryLoopBody_eq (w : World) (t : Tally) (logDir : String) :
    directoryLoopBody w t logDir =
      match sourceError (w.fs t.st.statLog.length) logDir with
      | some e =>
        { lastError := some (.os e), errorCount := t.errorCount + 1,
          st := RecordLogError "collector" "directory_error" (collectDirectoryLogs w logDir t.st).2 }
      | none => { t with st := (collectDirectoryLogs w logDir t.st).2 } := by
  unfold directoryLoopBody
  rw [collectDirectoryLogs_eq]
  cases sourceError (w.fs t.st.statLog.length) logDir <;> rfl

theorem serviceLoop_spec (w : World) (q : MetricOp → Bool)
    (hq : ∀ op, op.isFileMetric = true → q op = false) :
    ∀ (order : List (String × String)) (t : Tally),
      (order.foldl (serviceLoopBody w) t).st.statLog = t.st.statLog ++ order.map Prod.snd ∧
      (order.foldl (serviceLoopBody w) t).errorCount =
        t.errorCount + (failures w t.st.statLog.length (order.map Prod.snd)).length ∧
      (order.foldl (serviceLoopBody w) t).lastError =
        (failures w t.st.statLog.length (order.map Prod.snd)).getLast?.or t.lastError ∧
      (order.foldl (serviceLoopBody w) t).st.ops.filter q =
        t.st.ops.filter q ++ (serviceErrorOps w t.st.statLog.length order).filter q ∧
      (order.foldl (serviceLoopBody w) t).st.clockPos = t.st.clockPos ∧
      (order.foldl (serviceLoopBody w) t).st.rangePos = t.st.rangePos
  | [], t => by simp [failures, serviceErrorOps]
  | entry :: rest, t => by
    obtain ⟨h1, h2, h3, h4, h5, h6⟩ := serviceLoop_spec w q hq rest (serviceLoopBody w t entry)
    simp only [List.foldl_cons, List.map_cons]
    rw [h1, h2, h3, h4, h5, h6, serviceLoopBody_eq, collectServiceLogs_eq]
    have hf := filter_eq_nil_of_fileMetric q hq _
      (serviceFileOps_isFileMetric w entry.1
        (visitedLogFiles (w.fs t.st.statLog.length) entry.2) t.st.randPos)
    cases hse : sourceError (w.fs t.st.statLog.length) entry.2 with
    | none =>
      simp [failures, serviceErrorOps, hse, hf]
    | some e =>
      have hl : ∀ (l : List GoError) (a : GoError) (y : Option GoError),
          l.getLast?.or (some a) = ((a :: l).getLast?).or y := by
        intro l a y
        rw [List.getLast?_cons]
        cases l.getLast? <;> rfl
      refine ⟨?_, ?_, ?_, ?_, ?_, ?_⟩
      · simp [RecordLogError, State.record]
      · simp [failures, hse, RecordLogError, State.record]
        omega
      · simp only [failures, hse, RecordLogError, State.record, List.length_append,
          List.length_singleton]
        exact hl _ _ _
      · simp [serviceErrorOps, hse, hf, RecordLogError, State.record, List.filter_cons]
        split <;> rfl
      · simp [RecordLogError, State.record]
      · simp [RecordLogError, State.record]

theorem directoryLoop_spec (w : World) (q : MetricOp → Bool)
    (hq : ∀ op, op.isFileMetric = true → q op = false) :
    ∀ (dirs : List String) (t : Tally),
      (dirs.foldl (directoryLoopBody w) t).st.statLog = t.st.statLog ++ dirs ∧
      (dirs.foldl (directoryLoopBody w) t).errorCount =
        t.errorCount + (failures w t.st.statLog.length dirs).length ∧
      (dirs.foldl (directoryLoopBody w) t).lastError =
        (failures w t.st.statLog.length dirs).getLast?.or t.lastError ∧
      (dirs.foldl (directoryLoopBody w) t).st.ops.filter q =
        t.st.ops.filter q ++ (directoryErrorOps w t.st.statLog.length dirs).filter q ∧
      (dirs.foldl (directoryLoopBody w) t).st.clockPos = t.st.clockPos ∧
      (dirs.foldl (directoryLoopBody w) t).st.rangePos = t.st.rangePos
  | [], t => by simp [failures, directoryErrorOps]
  | logDir :: rest, t => by
    obtain ⟨h1, h2, h3, h4, h5, h6⟩ := directoryLoop_spec w q hq rest (directoryLoopBody w t logDir)
    simp only [List.foldl_cons]
    rw [h1, h2, h3, h4, h5, h6, directoryLoopBody_eq, collectDirectoryLogs_eq]
    have hf := filter_eq_nil_of_fileMetric q hq _
      (directoryFileOps_isFileMetric w
        (visitedLogFiles (w.fs t.st.statLog.length) logDir) t.st.randPos)
    cases hse : sourceError (w.fs t.st.statLog.length) logDir with
    | none =>
      simp [failures, directoryErrorOps, hse, hf]
    | some e =>
      have hl : ∀ (l : List GoError) (a : GoError) (y : Option GoError),
          l.getLast?.or (some a) = ((a :: l).getLast?).or y := by
        intro l a y
        rw [List.getLast?_cons]
        cases l.getLast? <;> rfl
      refine ⟨?_, ?_, ?_, ?_, ?_, ?_⟩
      · simp [RecordLogError, State.record]
      · simp [failures, hse, RecordLogError, State.record]
        omega
      · simp only [failures, hse, RecordLogError, State.record, List.length_append,
          List.length_singleton]
        exact hl _ _ _
      · simp [directoryErrorOps, hse, hf, RecordLogError, State.record, List.filter_cons]
        split <;> rfl
      · simp [RecordLogError, State.record]
      · simp [RecordLogError, State.record]

theorem failures_append (w : World) :
    ∀ (ps qs : List String) (k : Nat),
      failures w k (ps ++ qs) = failures w k ps ++ failures w (k + ps.length) qs
  | [], qs, k => by simp [failures]
  | p :: ps, qs, k => by
    have ih := failures_append w ps qs (k + 1)
    have hk : k + 1 + ps.length = k + (ps.length + 1) := by omega
    cases h : sourceError (w.fs k) p <;> simp [failures, h, ih, hk]

theorem collectLoops_spec (w : World) (q : MetricOp → Bool)
    (hq : ∀ op, op.isFileMetric = true → q op = false)
    (order : List (String × String)) (s : State) :
    (collectLoops w order s).st.statLog = s.statLog ++ (order.map Prod.snd ++ logDirs) ∧
    (collectLoops w order s).errorCount =
      (failures w s.statLog.length (order.map Prod.snd ++ logDirs)).length ∧
    (collectLoops w order s).lastError =
      (failures w s.statLog.length (order.map Prod.snd ++ logDirs)).getLast? ∧
    (collectLoops w order s).st.ops.filter q =
      s.ops.filter q ++
        (serviceErrorOps w s.statLog.length order ++
          directoryErrorOps w (s.statLog.length + order.length) logDirs).filter q ∧
    (collectLoops w order s).st.clockPos = s.clockPos ∧
    (collectLoops w order s).st.rangePos = s.rangePos := by
  obtain ⟨a1, a2, a3, a4, a5, a6⟩ :=
    serviceLoop_spec w q hq order { lastError := none, errorCount := 0, st := s }
  obtain ⟨b1, b2, b3, b4, b5, b6⟩ :=
    directoryLoop_spec w q hq logDirs
      (order.foldl (serviceLoopBody w) { lastError := none, errorCount := 0, st := s })
  unfold collectLoops
  simp only [] at a1 a2 a3 a4 a5 a6
  rw [a1] at b1 b2 b3 b4
  rw [a2] at b2
  rw [a3] at b3
  rw [a4] at b4
  rw [a5] at b5
  rw [a6] at b6
  simp only [List.length_append, List.length_map] at b2 b3 b4
  refine ⟨?_, ?_, ?_, ?_, b5, b6⟩
  · rw [b1, List.append_assoc]
  · rw [b2, failures_append]
    simp
  · rw [b3, failures_append, List.getLast?_append]
    simp
  · rw [b4, List.filter_append, List.append_assoc]

theorem not_fileMetric_of_errorCount (op : MetricOp) (h : op.isFileMetric = true) :
    op.isErrorCount = false := by
  cases op with
  | counterAdd n l d =>
    simp only [MetricOp.isFileMetric, beq_iff_eq] at h
    subst h
    simp only [MetricOp.isErrorCount]
    decide
  | gaugeSet n l v => rfl
  | observe n l v => rfl

theorem serviceErrorOps_filter (w : World) :
    ∀ (order : List (String × String)) (k : Nat),
      (serviceErrorOps w k order).filter MetricOp.isErrorCount = serviceErrorOps w k order
  | [], k => by simp [serviceErrorOps]
  | entry :: rest, k => by
    have ih := serviceErrorOps_filter w rest (k + 1)
    cases h : sourceError (w.fs k) entry.2 <;>
      simp [serviceErrorOps, h, ih, MetricOp.isErrorCount]

theorem directoryErrorOps_filter (w : World) :
    ∀ (dirs : List String) (k : Nat),
      (directoryErrorOps w k dirs).filter MetricOp.isErrorCount = directoryErrorOps w k dirs
  | [], k => by simp [directoryErrorOps]
  | logDir :: rest, k => by
    have ih := directoryErrorOps_filter w rest (k + 1)
    cases h : sourceError (w.fs k) logDir <;>
      simp [directoryErrorOps, h, ih, MetricOp.isErrorCount]

theorem errorOps_filter_eq_nil (w : World) (q : MetricOp → Bool)
    (hq : ∀ op, op.isErrorCount = true → q op = false)
    (order : List (String × String)) (dirs : List String) (k j : Nat) :
    (serviceErrorOps w k order ++ directoryErrorOps w j dirs).filter q = [] := by
  rw [List.filter_eq_nil_iff]
  intro op hop
  have h : op ∈ (serviceErrorOps w k order ++ directoryErrorOps w j dirs).filter
      MetricOp.isErrorCount := by
    rw [List.filter_append, serviceErrorOps_filter, directoryErrorOps_filter]
    exact hop
  simp [hq op (List.mem_filter.mp h).2]

/-- The result of `collectLogMetrics`, in terms of the failing sources. -/
theorem collectLogMetrics_result (w : World) (s : State) :
    (collectLogMetrics w s).1 =
      if (failures w s.statLog.length
          ((w.rangeOrder s.rangePos).map Prod.snd ++ logDirs)).isEmpty then none
      else some (.collectionErrors
        (failures w s.statLog.length
          ((w.rangeOrder s.rangePos).map Prod.snd ++ logDirs)).length
        (failures w s.statLog.length
          ((w.rangeOrder s.rangePos).map Prod.snd ++ logDirs)).getLast?) := by
  obtain ⟨_, h2, h3, _⟩ := collectLoops_spec w (fun _ => false) (fun _ _ => rfl)
    (w.rangeOrder s.rangePos) { s with rangePos := s.rangePos + 1 }
  simp only [] at h2 h3
  unfold collectLogMetrics
  simp only [h2, h3]
  cases hf : failures w s.statLog.length ((w.rangeOrder s.rangePos).map Prod.snd ++ logDirs) with
  | nil => simp
  | cons a l => simp

/-- Writes of a kind `q` that neither the file metrics nor the error counter
belong to are not made by `collectLogMetrics`. -/
theorem collectLogMetrics_filter (w : World) (q : MetricOp → Bool)
    (hq : ∀ op, op.isFileMetric = true → q op = false)
    (hq2 : ∀ op, op.isErrorCount = true → q op = false) (s : State) :
    (collectLogMetrics w s).2.ops.filter q = s.ops.filter q := by
  obtain ⟨_, _, _, h4, _⟩ := collectLoops_spec w q hq
    (w.rangeOrder s.rangePos) { s with rangePos := s.rangePos + 1 }
  simp only [] at h4
  rw [errorOps_filter_eq_nil w q hq2, List.append_nil] at h4
  unfold collectLogMetrics
  simp only []
  split <;> exact h4

theorem collectLogMetrics_positions (w : World) (s : State) :
    (collectLogMetrics w s).2.statLog =
      s.statLog ++ ((w.rangeOrder s.rangePos).map Prod.snd ++ logDirs) ∧
    (collectLogMetrics w s).2.clockPos = s.clockPos ∧
    (collectLogMetrics w s).2.rangePos = s.rangePos + 1 := by
  obtain ⟨h1, _, _, _, h5, h6⟩ := collectLoops_spec w (fun _ => false) (fun _ _ => rfl)
    (w.rangeOrder s.rangePos) { s with rangePos := s.rangePos + 1 }
  simp only [] at h1 h5 h6
  unfold collectLogMetrics
  simp only []
  split <;> exact ⟨h1, h5, h6⟩

/-! ## Lemmas on `cycle` and the scheduler loop -/

theorem cycle_eq (w : World) (s : State) :
    ∃ s1 : State, s1.statLog = s.statLog ∧ s1.rangePos = s.rangePos ∧
      (∃ u r, s1.ops = s.ops ++ [.gaugeSet collectorUptime [] u,
        .counterAdd myCounter [] 1, .gaugeSet myGauge [] r]) ∧
      cycle w s =
        match collectLogMetrics w s1 with
        | (some err, s2) => (some (.cycleFailed err), s2)
        | (none, s2) =>
          (none, RecordLogProcessingTime "collector" (w.clock s2.clockPos - w.clock s.clockPos)
            { s2 with clockPos := s2.clockPos + 1 }) := by
  refine ⟨{ ops := s.ops ++ [.gaugeSet collectorUptime [] (w.clock (s.clockPos + 1) - w.startTime),
              .counterAdd myCounter [] 1,
              .gaugeSet myGauge [] (float64At w s.randPos)],
            randPos := s.randPos + 1, clockPos := s.clockPos + 1 + 1,
            statLog := s.statLog, rangePos := s.rangePos }, rfl, rfl, ⟨_, _, rfl⟩, ?_⟩
  simp [cycle, timeNow, UpdateUptime, State.record, randFloat64]

/-- The writes of kind `q` made by one call of `cycle`, for a kind that
neither the file metrics nor the error counter belong to. -/
theorem cycle_filter (w : World) (q : MetricOp → Bool)
    (hq : ∀ op, op.isFileMetric = true → q op = false)
    (hq2 : ∀ op, op.isErrorCount = true → q op = false) (s : State) :
    ∃ u r d, (cycle w s).2.ops.filter q =
      s.ops.filter q ++
        [MetricOp.gaugeSet collectorUptime [] u, .counterAdd myCounter [] 1,
          .gaugeSet myGauge [] r].filter q ++
        if (cycle w s).1.isNone then [MetricOp.observe logProcessingDuration ["collector"] d].filter q
        else [] := by
  obtain ⟨s1, _, _, ⟨u, r, hops⟩, hc⟩ := cycle_eq w s
  have hf := collectLogMetrics_filter w q hq hq2 s1
  rw [hops, List.filter_append] at hf
  rw [hc]
  rcases hm : collectLogMetrics w s1 with ⟨e, s2⟩
  rw [hm] at hf
  simp only [] at hf
  cases e with
  | some err =>
    exact ⟨u, r, 0, by simp [hf]⟩
  | none =>
    refine ⟨u, r, w.clock s2.clockPos - w.clock s.clockPos, ?_⟩
    simp [RecordLogProcessingTime, State.record, hf]

theorem cycle_result (w : World) (s : State) :
    (cycle w s).1.isNone =
      (failures w s.statLog.length
        ((w.rangeOrder s.rangePos).map Prod.snd ++ logDirs)).isEmpty := by
  obtain ⟨s1, h1, h2, _, hc⟩ := cycle_eq w s
  have hr := collectLogMetrics_result w s1
  rw [h1, h2] at hr
  rw [hc]
  rcases hm : collectLogMetrics w s1 with ⟨e, s2⟩
  rw [hm] at hr
  simp only [] at hr
  cases e with
  | some err =>
    cases hf : failures w s.statLog.length ((w.rangeOrder s.rangePos).map Prod.snd ++ logDirs) with
    | nil => rw [hf] at hr; simp at hr
    | cons a l => simp
  | none =>
    cases hf : failures w s.statLog.length ((w.rangeOrder s.rangePos).map Prod.snd ++ logDirs) with
    | nil => simp
    | cons a l => rw [hf] at hr; simp at hr

theorem cyclesRun_cycle (w : World) (s : State) :
    cyclesRun (cycle w s).2 = cyclesRun s + 1 := by
  obtain ⟨u, r, d, h⟩ := cycle_filter w
    (fun op => match op with
      | .counterAdd n _ _ => n == myCounter
      | _ => false)
    (by
      intro op hop
      cases op with
      | counterAdd n l d =>
        simp only [MetricOp.isFileMetric, beq_iff_eq] at hop
        subst hop
        show (logsCollectedTotal == myCounter) = false
        decide
      | gaugeSet n l v => rfl
      | observe n l v => rfl)
    (by
      intro op hop
      cases op with
      | counterAdd n l d =>
        simp only [MetricOp.isErrorCount, beq_iff_eq] at hop
        subst hop
        show (logErrorsTotal == myCounter) = false
        decide
      | gaugeSet n l v => rfl
      | observe n l v => rfl) s
  unfold cyclesRun counterAdds
  rw [List.countP_eq_length_filter, List.countP_eq_length_filter, h]
  cases (cycle w s).1 <;> simp [List.filter_cons]

theorem cyclesRun_onTick (w : World) (s : State) :
    cyclesRun (onTick w s) = cyclesRun s + 1 := by
  have h := cyclesRun_cycle w s
  unfold onTick
  rcases hm : cycle w s with ⟨e, s1⟩
  rw [hm] at h
  cases e with
  | none => exact h
  | some err =>
    simp only [] at h ⊢
    rw [← h]
    unfold cyclesRun counterAdds RecordLogError State.record
    rw [List.countP_append]
    have hne : (logErrorsTotal == myCounter) = false := by decide
    simp [List.countP_cons, hne]

theorem schedulerLoop_ticks (w : World) :
    ∀ (n : Nat) (rest : List Event) (s : State),
      schedulerLoop w (List.replicate n Event.tick ++ rest) s =
        schedulerLoop w rest ((onTick w)^[n] s)
  | 0, rest, s => rfl
  | n + 1, rest, s => by
    simp only [List.replicate_succ, List.cons_append, schedulerLoop, Function.iterate_succ,
      Function.comp_apply]
    exact schedulerLoop_ticks w n rest (onTick w s)

theorem cyclesRun_iterate (w : World) :
    ∀ (n : Nat) (s : State), cyclesRun ((onTick w)^[n] s) = cyclesRun s + n
  | 0, s => rfl
  | n + 1, s => by
    rw [Function.iterate_succ, Function.comp_apply, cyclesRun_iterate w n, cyclesRun_onTick]
    omega

theorem schedulerLoop_returned_iff (w : World) :
    ∀ (events : List Event) (s : State),
      (schedulerLoop w events s).1 = Outcome.returned ↔ Event.done ∈ events
  | [], s => by simp [schedulerLoop]
  | .done :: rest, s => by simp [schedulerLoop]
  | .tick :: rest, s => by
    simp only [schedulerLoop, List.mem_cons]
    rw [schedulerLoop_returned_iff w rest]
    simp

/-! ## Lemmas on fully traversable trees -/

mutual
theorem scan_of_traversable :
    ∀ (t : FsNode), t.traversable = true → t.scan = (t.entries, none)
  | .file _ _ _, _ => rfl
  | .symlink _ _ _ _, _ => rfl
  | .unreadableDir _ _ _ _, h => by simp [FsNode.traversable] at h
  | .lstatFail _ _, h => by simp [FsNode.traversable] at h
  | .dir path name size children, h => by
    have ih := scanList_of_traversable children (by simpa [FsNode.traversable] using h)
    simp [FsNode.scan, FsNode.entries, ih]
theorem scanList_of_traversable :
    ∀ (l : FsList), l.traversable = true → l.scan = (l.entries, none)
  | .nil, _ => rfl
  | .cons child rest, h => by
    simp only [FsList.traversable, Bool.and_eq_true] at h
    have ih1 := scan_of_traversable child h.1
    have ih2 := scanList_of_traversable rest h.2
    simp [FsList.scan, FsList.entries, ih1, ih2]
end

theorem failures_of_missing (w : World)
    (hmissing : ∀ k path, (w.fs k).statNotExist path = true) :
    ∀ (paths : List String) (k : Nat), failures w k paths = []
  | [], k => rfl
  | p :: ps, k => by
    simp [failures, sourceError, hmissing, failures_of_missing w hmissing ps (k + 1)]

/-! ## Lemmas on the deltas added to counters -/

theorem randFloat64_range (w : World) (s : State) :
    0 ≤ (randFloat64 w s).1 ∧ (randFloat64 w s).1 < 1 :=
  float64At_range w s.randPos

theorem GrowsSafely.refl (s : State) : GrowsSafely s s :=
  ⟨[], by simp, by simp⟩

theorem GrowsSafely.trans {s1 s2 s3 : State} (h12 : GrowsSafely s1 s2)
    (h23 : GrowsSafely s2 s3) : GrowsSafely s1 s3 := by
  obtain ⟨e1, h1, p1⟩ := h12
  obtain ⟨e2, h2, p2⟩ := h23
  refine ⟨e1 ++ e2, by rw [h2, h1, List.append_assoc], ?_⟩
  intro op hop
  rcases List.mem_append.mp hop with h | h
  · exact p1 op h
  · exact p2 op h

theorem GrowsSafely.of_ops {s1 s2 : State} (extra : List MetricOp)
    (h : s2.ops = s1.ops ++ extra) (hsafe : ∀ op ∈ extra, op.rejected = false) :
    GrowsSafely s1 s2 :=
  ⟨extra, h, hsafe⟩

theorem serviceFileOps_not_rejected (w : World) (service : String) :
    ∀ (vs : List (String × FileInfo)) (pos : Nat),
      ∀ op ∈ serviceFileOps w service pos vs, op.rejected = false
  | [], pos => by simp [serviceFileOps]
  | v :: vs, pos => by
    intro op hop
    simp only [serviceFileOps, List.mem_cons] at hop
    rcases hop with h | h | h
    · subst h; rfl
    · subst h
      simp only [MetricOp.rejected, decide_eq_false_iff_not, not_lt]
      exact roundFloat64_nonneg _ (mul_nonneg (float64At_range w pos).1 (by norm_num))
    · exact serviceFileOps_not_rejected w service vs (pos + 2) op h

theorem directoryFileOps_not_rejected (w : World) :
    ∀ (vs : List (String × FileInfo)) (pos : Nat),
      ∀ op ∈ directoryFileOps w pos vs, op.rejected = false
  | [], pos => by simp [directoryFileOps]
  | v :: vs, pos => by
    intro op hop
    simp only [directoryFileOps, List.mem_cons] at hop
    rcases hop with h | h | h
    · subst h; rfl
    · subst h
      simp only [MetricOp.rejected, decide_eq_false_iff_not, not_lt]
      exact roundFloat64_nonneg _ (mul_nonneg (float64At_range w pos).1 (by norm_num))
    · exact directoryFileOps_not_rejected w vs (pos + 1) op h

theorem RecordLogError_grows (service errorType : String) (s : State) :
    GrowsSafely s (RecordLogError service errorType s) := by
  refine ⟨[.counterAdd logErrorsTotal [service, errorType] 1], rfl, ?_⟩
  intro op hop
  simp only [List.mem_singleton] at hop
  subst hop
  simp [MetricOp.rejected]

theorem collectServiceLogs_grows (w : World) (service logPath : String) (s : State) :
    GrowsSafely s (collectServiceLogs w service logPath s).2 := by
  rw [collectServiceLogs_eq]
  exact ⟨_, rfl, serviceFileOps_not_rejected w service _ _⟩

theorem collectDirectoryLogs_grows (w : World) (logDir : String) (s : State) :
    GrowsSafely s (collectDirectoryLogs w logDir s).2 := by
  rw [collectDirectoryLogs_eq]
  exact ⟨_, rfl, directoryFileOps_not_rejected w _ _⟩

theorem serviceLoopBody_grows (w : World) (t : Tally) (entry : String × String) :
    GrowsSafely t.st (serviceLoopBody w t entry).st := by
  rw [serviceLoopBody_eq]
  cases sourceError (w.fs t.st.statLog.length) entry.2 with
  | none => exact collectServiceLogs_grows w entry.1 entry.2 t.st
  | some e =>
    exact (collectServiceLogs_grows w entry.1 entry.2 t.st).trans
      (RecordLogError_grows entry.1 "collection_error" _)

theorem directoryLoopBody_grows (w : World) (t : Tally) (logDir : String) :
    GrowsSafely t.st (directoryLoopBody w t logDir).st := by
  rw [directoryLoopBody_eq]
  cases sourceError (w.fs t.st.statLog.length) logDir with
  | none => exact collectDirectoryLogs_grows w logDir t.st
  | some e =>
    exact (collectDirectoryLogs_grows w logDir t.st).trans
      (RecordLogError_grows "collector" "directory_error" _)

theorem serviceLoop_grows (w : World) :
    ∀ (order : List (String × String)) (t : Tally),
      GrowsSafely t.st (order.foldl (serviceLoopBody w) t).st
  | [], _ => GrowsSafely.refl _
  | entry :: rest, t =>
    (serviceLoopBody_grows w t entry).trans
      (serviceLoop_grows w rest (serviceLoopBody w t entry))

theorem directoryLoop_grows (w : World) :
    ∀ (dirs : List String) (t : Tally),
      GrowsSafely t.st (dirs.foldl (directoryLoopBody w) t).st
  | [], _ => GrowsSafely.refl _
  | logDir :: rest, t =>
    (directoryLoopBody_grows w t logDir).trans
      (directoryLoop_grows w rest (directoryLoopBody w t logDir))

theorem collectLogMetrics_grows (w : World) (s : State) :
    GrowsSafely s (collectLogMetrics w s).2 := by
  have h1 := serviceLoop_grows w (w.rangeOrder s.rangePos)
    { lastError := none, errorCount := 0, st := { s with rangePos := s.rangePos + 1 } }
  have h2 := directoryLoop_grows w logDirs
    ((w.rangeOrder s.rangePos).foldl (serviceLoopBody w)
      { lastError := none, errorCount := 0, st := { s with rangePos := s.rangePos + 1 } })
  have h := h1.trans h2
  unfold collectLogMetrics collectLoops
  simp only []
  split <;> exact h

theorem cycle_grows (w : World) (s : State) : GrowsSafely s (cycle w s).2 := by
  obtain ⟨s1, _, _, ⟨u, r, hops⟩, hc⟩ := cycle_eq w s
  have h1 : GrowsSafely s s1 := by
    refine ⟨_, hops, ?_⟩
    intro op hop
    simp only [List.mem_cons, List.mem_singleton, List.not_mem_nil, or_false] at hop
    rcases hop with h | h | h <;> subst h <;> simp [MetricOp.rejected]
  have h2 := collectLogMetrics_grows w s1
  rw [hc]
  rcases hm : collectLogMetrics w s1 with ⟨e, s2⟩
  rw [hm] at h2
  cases e with
  | some err => exact h1.trans h2
  | none =>
    refine (h1.trans h2).trans ⟨[.observe logProcessingDuration ["collector"] _], rfl, ?_⟩
    intro op hop
    simp only [List.mem_singleton] at hop
    subst hop
    rfl

theorem onTick_grows (w : World) (s : State) : GrowsSafely s (onTick w s) := by
  have h := cycle_grows w s
  unfold onTick
  rcases hm : cycle w s with ⟨e, s1⟩
  rw [hm] at h
  cases e with
  | none => exact h
  | some err => exact h.trans (RecordLogError_grows "collector" "cycle_error" s1)

theorem schedulerLoop_grows (w : World) :
    ∀ (events : List Event) (s : State), GrowsSafely s (schedulerLoop w events s).2
  | [], s => GrowsSafely.refl s
  | .done :: _, s => GrowsSafely.refl s
  | .tick :: rest, s => (onTick_grows w s).trans (schedulerLoop_grows w rest (onTick w s))

theorem counterValue_append (name : String) (labels : List String) :
    ∀ (l1 l2 : List MetricOp),
      counterValue name labels (l1 ++ l2) =
        counterValue name labels l1 + counterValue name labels l2
  | [], l2 => by simp [counterValue]
  | .counterAdd n l d :: rest, l2 => by
    have ih := counterValue_append name labels rest l2
    rw [List.cons_append]
    simp only [counterValue]
    rw [ih]
    ring
  | .gaugeSet n l v :: rest, l2 => by
    have ih := counterValue_append name labels rest l2
    rw [List.cons_append]
    simp only [counterValue]
    exact ih
  | .observe n l v :: rest, l2 => by
    have ih := counterValue_append name labels rest l2
    rw [List.cons_append]
    simp only [counterValue]
    exact ih

theorem counterValue_nonneg (name : String) (labels : List String) :
    ∀ (l : List MetricOp), (∀ op ∈ l, op.rejected = false) → 0 ≤ counterValue name labels l
  | [], _ => by simp [counterValue]
  | .counterAdd n l d :: rest, h => by
    have hd : 0 ≤ d := by
      have := h (.counterAdd n l d) (List.mem_cons_self _ _)
      simpa [MetricOp.rejected] using this
    have ih := counterValue_nonneg name labels rest
      (fun op hop => h op (List.mem_cons_of_mem _ hop))
    simp only [counterValue]
    split <;> linarith
  | .gaugeSet n l v :: rest, h => by
    simp only [counterValue]
    exact counterValue_nonneg name labels rest (fun op hop => h op (List.mem_cons_of_mem _ hop))
  | .observe n l v :: rest, h => by
    simp only [counterValue]
    exact counterValue_nonneg name labels rest (fun op hop => h op (List.mem_cons_of_mem _ hop))

theorem counterValue_mono {s1 s2 : State} (h : GrowsSafely s1 s2) (name : String)
    (labels : List String) :
    counterValue name labels s1.ops ≤ counterValue name labels s2.ops := by
  obtain ⟨extra, hops, hsafe⟩ := h
  rw [hops, counterValue_append]
  have := counterValue_nonneg name labels extra hsafe
  linarith

theorem counterValue_filter (name : String) (labels : List String) :
    ∀ (l : List MetricOp),
      counterValue name labels l =
        counterValue name labels
          (l.filter (fun op =>
            match op with
            | .counterAdd n _ _ => n == name
            | _ => false))
  | [] => rfl
  | .counterAdd n l d :: rest => by
    have ih := counterValue_filter name labels rest
    by_cases hn : n = name
    · simp only [List.filter_cons, hn, beq_self_eq_true, if_true, counterValue]
      rw [← ih]
    · have hb : (n == name) = false := by simpa using hn
      simp only [List.filter_cons, hb, Bool.false_eq_true, if_false, counterValue, hn,
        false_and]
      rw [← ih]
      ring
  | .gaugeSet n l v :: rest => by
    have ih := counterValue_filter name labels rest
    simp only [List.filter_cons, Bool.false_eq_true, if_false, counterValue]
    exact ih
  | .observe n l v :: rest => by
    have ih := counterValue_filter name labels rest
    simp only [List.filter_cons, Bool.false_eq_true, if_false, counterValue]
    exact ih

theorem counterValue_cycle (w : World) (s : State) :
    counterValue myCounter [] (cycle w s).2.ops = counterValue myCounter [] s.ops + 1 := by
  obtain ⟨u, r, d, h⟩ := cycle_filter w
    (fun op => match op with
      | .counterAdd n _ _ => n == myCounter
      | _ => false)
    (by
      intro op hop
      cases op with
      | counterAdd n l d =>
        simp only [MetricOp.isFileMetric, beq_iff_eq] at hop
        subst hop
        show (logsCollectedTotal == myCounter) = false
        decide
      | gaugeSet n l v => rfl
      | observe n l v => rfl)
    (by
      intro op hop
      cases op with
      | counterAdd n l d =>
        simp only [MetricOp.isErrorCount, beq_iff_eq] at hop
        subst hop
        show (logErrorsTotal == myCounter) = false
        decide
      | gaugeSet n l v => rfl
      | observe n l v => rfl) s
  rw [counterValue_filter myCounter [] (cycle w s).2.ops, h,
    counterValue_filter myCounter [] s.ops]
  cases (cycle w s).1 <;>
    simp [List.filter_cons, counterValue_append, counterValue]

/-! ## Claims -/

/-- C1: `collectLogMetrics` attempts every configured source exactly once
(the paths handed to `os.Stat` are those of the map in iteration order
followed by `logDirs`, a rearrangement of the configured sources), with no
early exit; each collector fails exactly when the traversal of its source
fails; the result is an error if and only if some source failed, and then it
carries the number of failed sources and the error of the last source that
failed in iteration order. -/
theorem collectLogMetrics_aggregates (w : World) (s : State)
    (horder : (w.rangeOrder s.rangePos).Perm serviceLogPaths) :
    (∀ service logPath s1, (collectServiceLogs w service logPath s1).1 =
        (sourceError (w.fs s1.statLog.length) logPath).map GoError.os) ∧
    (∀ logDir s1, (collectDirectoryLogs w logDir s1).1 =
        (sourceError (w.fs s1.statLog.length) logDir).map GoError.os) ∧
    (collectLogMetrics w s).2.statLog =
      s.statLog ++ ((w.rangeOrder s.rangePos).map Prod.snd ++ logDirs) ∧
    ((w.rangeOrder s.rangePos).map Prod.snd ++ logDirs).Perm
      (serviceLogPaths.map Prod.snd ++ logDirs) ∧
    ((collectLogMetrics w s).1.isSome ↔
      failures w s.statLog.length ((w.rangeOrder s.rangePos).map Prod.snd ++ logDirs) ≠ []) ∧
    (collectLogMetrics w s).1 =
      if (failures w s.statLog.length
          ((w.rangeOrder s.rangePos).map Prod.snd ++ logDirs)).isEmpty then none
      else some (.collectionErrors
        (failures w s.statLog.length
          ((w.rangeOrder s.rangePos).map Prod.snd ++ logDirs)).length
        (failures w s.statLog.length
          ((w.rangeOrder s.rangePos).map Prod.snd ++ logDirs)).getLast?) := by
  refine ⟨?_, ?_, (collectLogMetrics_positions w s).1, ?_, ?_, collectLogMetrics_result w s⟩
  · intro service logPath s1
    rw [collectServiceLogs_eq]
  · intro logDir s1
    rw [collectDirectoryLogs_eq]
  · exact (horder.map Prod.snd).append_right logDirs
  · rw [collectLogMetrics_result]
    cases failures w s.statLog.length ((w.rangeOrder s.rangePos).map Prod.snd ++ logDirs) <;>
      simp

/-- C1, exercised on a world in which all five sources fail: five paths are
attempted and the aggregate error counts five failures. -/
theorem collectLogMetrics_aggregates_witness :
    (deniedWorld.rangeOrder freshState.rangePos).Perm serviceLogPaths ∧
    (collectLogMetrics deniedWorld freshState).2.statLog =
      ["/logs/laravel", "/logs/react", "./logs", "./logs", "/logs"] ∧
    (collectLogMetrics deniedWorld freshState).1 =
      some (.collectionErrors 5 (some (.os "permission denied"))) := by
  have h := collectLogMetrics_aggregates deniedWorld freshState (List.Perm.refl _)
  exact ⟨List.Perm.refl _, h.2.2.1, h.2.2.2.2.2⟩

/-- When `os.Stat` fails with an error for which `os.IsNotExist` holds, that
is with `ENOENT`, `collectServiceLogs` and `collectDirectoryLogs` return no
error and write no metric at all; the source is not among the failures counted
by `collectLogMetrics` and contributes no increment of the error counter. -/
theorem missing_root_is_skipped (w : World) (service path : String) (s : State)
    (hmissing : (w.fs s.statLog.length).statNotExist path = true) :
    (collectServiceLogs w service path s).1 = none ∧
    (collectServiceLogs w service path s).2.ops = s.ops ∧
    (collectDirectoryLogs w path s).1 = none ∧
    (collectDirectoryLogs w path s).2.ops = s.ops ∧
    (∀ rest, failures w s.statLog.length (path :: rest) =
      failures w (s.statLog.length + 1) rest) ∧
    (∀ rest, serviceErrorOps w s.statLog.length ((service, path) :: rest) =
      serviceErrorOps w (s.statLog.length + 1) rest) ∧
    (∀ rest, directoryErrorOps w s.statLog.length (path :: rest) =
      directoryErrorOps w (s.statLog.length + 1) rest) := by
  refine ⟨?_, ?_, ?_, ?_, ?_, ?_, ?_⟩
  · simp [collectServiceLogs, hmissing]
  · simp [collectServiceLogs, hmissing]
  · simp [collectDirectoryLogs, hmissing]
  · simp [collectDirectoryLogs, hmissing]
  · intro rest
    simp [failures, sourceError, hmissing]
  · intro rest
    simp [serviceErrorOps, sourceError, hmissing]
  · intro rest
    simp [directoryErrorOps, sourceError, hmissing]

/-- The skip on `ENOENT`, exercised on a world in which no path exists. -/
theorem missing_root_is_skipped_witness :
    (quietWorld.fs freshState.statLog.length).statNotExist "/logs/laravel" = true ∧
    (collectServiceLogs quietWorld "snaproom-laravel" "/logs/laravel" freshState).1 = none ∧
    (collectServiceLogs quietWorld "snaproom-laravel" "/logs/laravel" freshState).2.ops = [] ∧
    (collectDirectoryLogs quietWorld "/logs/laravel" freshState).1 = none ∧
    (collectDirectoryLogs quietWorld "/logs/laravel" freshState).2.ops = [] :=
  have h := missing_root_is_skipped quietWorld "snaproom-laravel" "/logs/laravel" freshState rfl
  ⟨rfl, h.1, h.2.1, h.2.2.1, h.2.2.2.1⟩

/-- C7: the code does not do what the claim, and its own comment "Skip if
directory doesn't exist", say. With `/logs` a regular file nothing exists at
`/logs/laravel`, yet `os.Stat` fails with `ENOTDIR`, for which `os.IsNotExist`
is false; both collectors go on to `filepath.Walk` and return its error, and
`collectLogMetrics` counts the two named services under `/logs` as failed and
increments their error counters. -/
theorem missing_root_not_skipped :
    (fileAtLogsFs.stat "/logs/laravel").pathMissing = true ∧
    (fileAtLogsFs.stat "/logs/laravel").isNotExist = false ∧
    (collectServiceLogs fileAtLogsWorld "snaproom-laravel" "/logs/laravel" freshState).1 =
      some (.os "lstat /logs/laravel: not a directory") ∧
    (collectDirectoryLogs fileAtLogsWorld "/logs/laravel" freshState).1 =
      some (.os "lstat /logs/laravel: not a directory") ∧
    (collectLogMetrics fileAtLogsWorld freshState).1 =
      some (.collectionErrors 2 (some (.os "lstat /logs/react: not a directory"))) ∧
    (collectLogMetrics fileAtLogsWorld freshState).2.ops =
      [.counterAdd logErrorsTotal ["snaproom-laravel", "collection_error"] 1,
       .counterAdd logErrorsTotal ["snaproom-react", "collection_error"] 1] := by
  refine ⟨rfl, rfl, ?_, ?_, ?_, ?_⟩
  · rfl
  · rfl
  · rfl
  · rfl

/-- C8, as stated, fails: when only the traversal of the raw directory
`./logs` fails, the single error-counter increment is made under
`("collector", "directory_error")` and none under `"collection_error"`. -/
theorem directory_failure_counterexample :
    sourceError (directoryDeniedWorld.fs 3) "./logs" = some "permission denied" ∧
    (collectLogMetrics directoryDeniedWorld freshState).2.statLog =
      ["/logs/laravel", "/logs/react", "./logs", "./logs", "/logs"] ∧
    (collectLogMetrics directoryDeniedWorld freshState).2.ops =
      [.counterAdd logErrorsTotal ["collector", "directory_error"] 1] := by
  refine ⟨rfl, rfl, rfl⟩

/-- C8, amended: the increments of the error counter made by
`collectLogMetrics` are, in iteration order, one under
`(service, "collection_error")` for each named service whose traversal fails,
then one under `("collector", "directory_error")` for each raw directory whose
traversal fails, and no other. -/
theorem error_counter_increments (w : World) (s : State) :
    (collectLogMetrics w s).2.ops.filter MetricOp.isErrorCount =
      s.ops.filter MetricOp.isErrorCount ++
        (serviceErrorOps w s.statLog.length (w.rangeOrder s.rangePos) ++
          directoryErrorOps w (s.statLog.length + (w.rangeOrder s.rangePos).length) logDirs) := by
  obtain ⟨_, _, _, h4, _⟩ := collectLoops_spec w MetricOp.isErrorCount
    not_fileMetric_of_errorCount
    (w.rangeOrder s.rangePos) { s with rangePos := s.rangePos + 1 }
  simp only [] at h4
  rw [List.filter_append, serviceErrorOps_filter, directoryErrorOps_filter] at h4
  unfold collectLogMetrics
  simp only []
  split <;> exact h4

/-- C2, as stated, fails: the interval `-9223372037` is not positive, yet
`time.Second * time.Duration(interval)` wraps around to a positive period, so
no failure occurs, the loop is entered and a tick runs a cycle. -/
theorem wrapped_interval_counterexample :
    (-9223372037 : Int) ≤ 0 ∧
    tickerPeriod (-9223372037) = 9223372036709551616 ∧
    (StartCollectingWithContext quietWorld (-9223372037) [.tick] freshState).1 =
      Outcome.running ∧
    cyclesRun (StartCollectingWithContext quietWorld (-9223372037) [.tick] freshState).2 = 1 := by
  refine ⟨by decide, by decide, ?_, ?_⟩
  · rfl
  · have h := cyclesRun_onTick quietWorld freshState
    exact h

/-- C2, amended: for every interval from `-9223372036` to `0` (so that the
period in nanoseconds does not wrap around) `StartCollectingWithContext` fails
before entering its loop, by the panic of `time.NewTicker` on a non-positive
period; the state is left as it was, so no cycle is ever run, whatever events
would have followed. -/
theorem nonpositive_interval_panics (w : World) (interval : Int) (events : List Event)
    (s : State) (hlo : -9223372036 ≤ interval) (hhi : interval ≤ 0) :
    StartCollectingWithContext w interval events s =
      (.panicked "non-positive interval for NewTicker", s) ∧
    cyclesRun (StartCollectingWithContext w interval events s).2 = cyclesRun s := by
  have h1 : int64Wrap interval = interval := by
    unfold int64Wrap
    rw [Int.emod_eq_of_lt (by omega) (by omega)]
    omega
  have h2 : int64Wrap (1000000000 * interval) = 1000000000 * interval := by
    unfold int64Wrap
    rw [Int.emod_eq_of_lt (by omega) (by omega)]
    omega
  have hp : tickerPeriod interval ≤ 0 := by
    unfold tickerPeriod timeSecond
    rw [h1, h2]
    omega
  simp [StartCollectingWithContext, hp]

/-- C2, exercised at interval 0 with two ticks pending. -/
theorem nonpositive_interval_panics_witness :
    (-9223372036 : Int) ≤ 0 ∧ (0 : Int) ≤ 0 ∧
    StartCollectingWithContext quietWorld 0 [.tick, .tick] freshState =
      (.panicked "non-positive interval for NewTicker", freshState) :=
  ⟨by decide, by decide,
    (nonpositive_interval_panics quietWorld 0 [.tick, .tick] freshState
      (by decide) (by decide)).1⟩

/-- C3: the number of cycles run by the scheduler loop on any sequence of
events is the number of ticks that precede the first cancellation; after `n`
ticks followed by a cancellation the loop has returned in the state reached by
those `n` ticks, whatever events follow; in particular a cancellation observed
before any tick returns at once with no cycle run. -/
theorem no_cycle_after_cancellation (w : World) (s : State) :
    (∀ events, cyclesRun (schedulerLoop w events s).2 =
      cyclesRun s + (events.takeWhile (fun e => e == Event.tick)).length) ∧
    (∀ n rest, schedulerLoop w (List.replicate n Event.tick ++ Event.done :: rest) s =
      (Outcome.returned, (onTick w)^[n] s)) ∧
    (∀ n, cyclesRun ((onTick w)^[n] s) = cyclesRun s + n) ∧
    (∀ rest, schedulerLoop w (Event.done :: rest) s = (Outcome.returned, s)) := by
  refine ⟨?_, ?_, fun n => cyclesRun_iterate w n s, ?_⟩
  · intro events
    induction events generalizing s with
    | nil => simp [schedulerLoop]
    | cons e rest ih =>
      cases e with
      | done => simp [schedulerLoop]
      | tick =>
        simp only [schedulerLoop, ih, cyclesRun_onTick, List.takeWhile_cons, beq_self_eq_true,
          if_true, List.length_cons]
        omega
  · intro n rest
    rw [schedulerLoop_ticks]
    rfl
  · intro rest
    rfl

/-- C4: when `cycle` returns an error on a tick, the loop records the error
under `("collector", "cycle_error")` and goes on with the events that follow;
it returns only if a cancellation is among them, and a second tick runs a
second cycle while the loop stays in its running state. -/
theorem failed_cycle_keeps_running (w : World) (s : State) (err : GoError)
    (rest : List Event) (herr : (cycle w s).1 = some err) :
    schedulerLoop w (Event.tick :: rest) s =
      schedulerLoop w rest (RecordLogError "collector" "cycle_error" (cycle w s).2) ∧
    ((schedulerLoop w (Event.tick :: rest) s).1 = Outcome.returned ↔ Event.done ∈ rest) ∧
    (schedulerLoop w [Event.tick, Event.tick] s).1 = Outcome.running ∧
    cyclesRun (schedulerLoop w [Event.tick, Event.tick] s).2 = cyclesRun s + 2 := by
  refine ⟨?_, ?_, rfl, ?_⟩
  · simp only [schedulerLoop, onTick]
    rcases hm : cycle w s with ⟨e, s1⟩
    rw [hm] at herr
    simp only [] at herr
    subst herr
    rfl
  · simp only [schedulerLoop]
    exact schedulerLoop_returned_iff w rest (onTick w s)
  · simp only [schedulerLoop, cyclesRun_onTick]

/-- C4, exercised on a world in which every traversal fails. -/
theorem failed_cycle_keeps_running_witness :
    (cycle deniedWorld freshState).1 =
      some (.cycleFailed (.collectionErrors 5 (some (.os "permission denied")))) ∧
    (schedulerLoop deniedWorld [Event.tick, Event.tick] freshState).1 = Outcome.running ∧
    cyclesRun (schedulerLoop deniedWorld [Event.tick, Event.tick] freshState).2 =
      cyclesRun freshState + 2 :=
  have h := failed_cycle_keeps_running deniedWorld freshState
    (.cycleFailed (.collectionErrors 5 (some (.os "permission denied")))) [] rfl
  ⟨rfl, h.2.2.1, h.2.2.2⟩

/-- C5, as stated, fails: in a cycle in which sources fail, `cycle` returns
the error before reaching `RecordLogProcessingTime`, and no observation is
recorded in the processing-duration histogram. -/
theorem failed_cycle_counterexample :
    (cycle deniedWorld freshState).1 =
      some (.cycleFailed (.collectionErrors 5 (some (.os "permission denied")))) ∧
    observations logProcessingDuration ["collector"] (cycle deniedWorld freshState).2.ops = 0 := by
  refine ⟨rfl, ?_⟩
  decide

/-- C5, amended: a call of `cycle` in which no source fails returns no error
and records exactly one observation in the processing-duration histogram under
the label `"collector"`, in particular when no source exists; a call in which
some source fails returns an error and records none. -/
theorem cycle_duration_observations (w : World) (s : State) :
    observations logProcessingDuration ["collector"] (cycle w s).2.ops =
      observations logProcessingDuration ["collector"] s.ops +
        (if (cycle w s).1.isNone then 1 else 0) ∧
    (cycle w s).1.isNone =
      (failures w s.statLog.length
        ((w.rangeOrder s.rangePos).map Prod.snd ++ logDirs)).isEmpty ∧
    ((∀ k path, (w.fs k).statNotExist path = true) →
      (cycle w s).1 = none ∧
      observations logProcessingDuration ["collector"] (cycle w s).2.ops =
        observations logProcessingDuration ["collector"] s.ops + 1) := by
  have hobs : observations logProcessingDuration ["collector"] (cycle w s).2.ops =
      observations logProcessingDuration ["collector"] s.ops +
        (if (cycle w s).1.isNone then 1 else 0) := by
    obtain ⟨u, r, d, h⟩ := cycle_filter w
      (fun op => match op with
        | .observe n l _ => n == logProcessingDuration && l == ["collector"]
        | _ => false)
      (by
        intro op hop
        cases op with
        | counterAdd n l d => rfl
        | gaugeSet n l v => rfl
        | observe n l v => simp [MetricOp.isFileMetric] at hop)
      (by
        intro op hop
        cases op with
        | counterAdd n l d => rfl
        | gaugeSet n l v => rfl
        | observe n l v => simp [MetricOp.isErrorCount] at hop) s
    unfold observations
    rw [List.countP_eq_length_filter, List.countP_eq_length_filter, h]
    cases (cycle w s).1 <;> simp [List.filter_cons]
  refine ⟨hobs, cycle_result w s, ?_⟩
  intro hmissing
  have hnone : (cycle w s).1.isNone = true := by
    rw [cycle_result, failures_of_missing w hmissing]
    rfl
  refine ⟨Option.isNone_iff_eq_none.mp hnone, ?_⟩
  rw [hobs, hnone]
  rfl

/-- C5, amended, exercised on a world in which no source exists. -/
theorem cycle_duration_observations_witness :
    (cycle quietWorld freshState).1 = none ∧
    observations logProcessingDuration ["collector"] (cycle quietWorld freshState).2.ops = 1 :=
  (cycle_duration_observations quietWorld freshState).2.2 (fun _ _ => rfl)

/-- C6, as stated, fails in two ways. The gauge receives `float64` of the
size, not the size: for `app.log` of `2^53 + 1` bytes it is set to `2^53`.
And a root that is a symbolic link to a directory holding only `app.log` of
1024 bytes exists for `os.Stat`, but `filepath.Walk` does not follow the link:
no metric is written and the gauge stays unset. -/
theorem gauge_size_counterexample :
    gaugeValue logFileSizeBytes ["snaproom-laravel", "app.log"]
      (collectServiceLogs bigFileWorld "snaproom-laravel" "/logs/laravel" freshState).2.ops =
        some 9007199254740992 ∧
    (9007199254740992 : ℚ) ≠ 9007199254740993 ∧
    (linkedFs.stat "/logs/laravel").pathMissing = false ∧
    (collectServiceLogs linkedWorld "snaproom-laravel" "/logs/laravel" freshState).1 = none ∧
    (collectServiceLogs linkedWorld "snaproom-laravel" "/logs/laravel" freshState).2.ops = [] ∧
    gaugeValue logFileSizeBytes ["snaproom-laravel", "app.log"]
      (collectServiceLogs linkedWorld "snaproom-laravel" "/logs/laravel" freshState).2.ops =
        none := by
  refine ⟨?_, by norm_num, rfl, rfl, rfl, rfl⟩
  have hsize : float64OfInt 9007199254740993 = 9007199254740992 := by
    have hcast : (9007199254740993 : Int) = ((9007199254740993 : Nat) : Int) := rfl
    have hround : roundSig53 9007199254740993 = 9007199254740992 := by decide
    rw [hcast, float64OfInt_natCast, hround]
    norm_num
  have hlog : isLogFile ⟨"app.log", 9007199254740993, false⟩ = true := by decide
  have hdir : isLogFile ⟨"root", 4096, true⟩ = false := rfl
  rw [collectServiceLogs_eq]
  simp only [visitedLogFiles, bigFileWorld, bigFileFs, quietWorld, FileSystem.statNotExist,
    StatResult.isNotExist, Bool.false_eq_true, if_false, FsNode.scan, FsList.scan,
    List.append_nil, List.filter_cons, hlog, hdir, if_true, List.filter_nil, serviceFileOps,
    freshState, List.nil_append, hsize]
  simp [gaugeValue]

/-- C6, amended: for a source whose root exists and whose tree, as
`filepath.Walk` sees it without following symbolic links, is fully
traversable, `collectServiceLogs` returns no error and its writes are exactly,
for each entry at any depth that is not a directory and whose name ends in
`.log`, in traversal order, one write of `float64` of the file's size (the
size itself up to `2^53` bytes) to the gauge keyed by `(service, name)`
followed by one addition to the counter keyed by `(service, level)` with
`level` one of `info`, `warn`, `error`, `debug`; for a root that is itself a
directory holding only `app.log` of 1024 bytes the gauge for
`(service, "app.log")` is 1024 afterwards and one counter addition was made. -/
theorem collectServiceLogs_traversable (w : World) (service logPath : String) (s : State)
    (hexists : (w.fs s.statLog.length).statNotExist logPath = false)
    (htrav : ((w.fs s.statLog.length).lstatTree logPath).traversable = true) :
    (collectServiceLogs w service logPath s).1 = none ∧
    (∃ isLog : String × FileInfo → Bool,
      (∀ v, isLog v = true ↔ v.2.isDir = false ∧ EndsWith ".log" v.2.name) ∧
      (collectServiceLogs w service logPath s).2.ops =
        s.ops ++ serviceFileOps w service s.randPos
          ((((w.fs s.statLog.length).lstatTree logPath).entries).filter isLog)) ∧
    (∀ k, levels.getD (w.rand k % 4) "" ∈ ["info", "warn", "error", "debug"]) ∧
    (∀ size : Int, size.natAbs ≤ 2 ^ 53 → float64OfInt size = (size : ℚ)) ∧
    (∀ path name size filePath,
      (w.fs s.statLog.length).lstatTree logPath =
        .dir path name size (.cons (.file filePath "app.log" 1024) .nil) →
      gaugeValue logFileSizeBytes [service, "app.log"]
        (collectServiceLogs w service logPath s).2.ops = some 1024 ∧
      counterAdds logsCollectedTotal (collectServiceLogs w service logPath s).2.ops =
        counterAdds logsCollectedTotal s.ops + 1) := by
  have hsc := scan_of_traversable _ htrav
  have hops : (collectServiceLogs w service logPath s).2.ops =
      s.ops ++ serviceFileOps w service s.randPos
        ((((w.fs s.statLog.length).lstatTree logPath).entries).filter
          (fun v => isLogFile v.2)) := by
    rw [collectServiceLogs_eq]
    simp only [visitedLogFiles, hexists, hsc, Bool.false_eq_true, if_false]
  refine ⟨?_, ⟨fun v => isLogFile v.2, ?_, hops⟩, ?_, float64OfInt_exact, ?_⟩
  · rw [collectServiceLogs_eq]
    simp [sourceError, hexists, hsc]
  · intro v
    simp only [isLogFile, Bool.and_eq_true, Bool.not_eq_true', stringsHasSuffix_iff]
  · intro k
    have hlt : w.rand k % 4 < 4 := Nat.mod_lt _ (by decide)
    generalize w.rand k % 4 = i at hlt
    interval_cases i <;> simp [levels]
  · intro path name size filePath htree
    rw [hops, htree]
    have hlog : isLogFile ⟨"app.log", 1024, false⟩ = true := by decide
    have hdir : isLogFile ⟨name, size, true⟩ = false := rfl
    have hsize : float64OfInt 1024 = 1024 := by
      rw [float64OfInt_exact 1024 (by decide)]
      norm_num
    simp only [FsNode.entries, FsList.entries, List.append_nil, List.filter_cons, hlog, hdir,
      if_true, Bool.false_eq_true, if_false, List.filter_nil, serviceFileOps, hsize]
    constructor
    · simp [gaugeValue, List.foldl_append]
    · have hne : (logFileSizeBytes == logsCollectedTotal) = false := by decide
      simp [counterAdds, List.countP_append, List.countP_cons, hne]

/-- C6, amended, exercised on a source whose root is a directory holding the
single file `app.log` of 1024 bytes. -/
theorem collectServiceLogs_traversable_witness :
    (appLogWorld.fs freshState.statLog.length).statNotExist "/logs/laravel" = false ∧
    ((appLogWorld.fs freshState.statLog.length).lstatTree "/logs/laravel").traversable = true ∧
    (collectServiceLogs appLogWorld "snaproom-laravel" "/logs/laravel" freshState).1 = none ∧
    gaugeValue logFileSizeBytes ["snaproom-laravel", "app.log"]
      (collectServiceLogs appLogWorld "snaproom-laravel" "/logs/laravel" freshState).2.ops =
        some 1024 ∧
    counterAdds logsCollectedTotal
      (collectServiceLogs appLogWorld "snaproom-laravel" "/logs/laravel" freshState).2.ops = 1 :=
  have h := collectServiceLogs_traversable appLogWorld "snaproom-laravel" "/logs/laravel"
    freshState rfl rfl
  ⟨rfl, rfl, h.1, (h.2.2.2.2 _ _ _ _ rfl).1, (h.2.2.2.2 _ _ _ _ rfl).2⟩

/-- C9: `determineServiceFromPath` returns `snaproom-laravel` if the path
contains `laravel`, otherwise `snaproom-react` if it contains `react`,
otherwise `collector` if it contains `collector`, otherwise `unknown`; the
result is `unknown` exactly when none of the three fragments occurs, and it is
always one of these four values. -/
theorem determineServiceFromPath_spec (path : String) :
    (Occurs "laravel" path → determineServiceFromPath path = "snaproom-laravel") ∧
    (¬ Occurs "laravel" path → Occurs "react" path →
      determineServiceFromPath path = "snaproom-react") ∧
    (¬ Occurs "laravel" path → ¬ Occurs "react" path → Occurs "collector" path →
      determineServiceFromPath path = "collector") ∧
    (determineServiceFromPath path = "unknown" ↔
      ¬ Occurs "laravel" path ∧ ¬ Occurs "react" path ∧ ¬ Occurs "collector" path) ∧
    determineServiceFromPath path ∈
      ["snaproom-laravel", "snaproom-react", "collector", "unknown"] := by
  simp only [← stringsContains_iff]
  unfold determineServiceFromPath
  by_cases h1 : stringsContains path "laravel" = true
  · simp [h1]
  · by_cases h2 : stringsContains path "react" = true
    · simp [h1, h2]
    · by_cases h3 : stringsContains path "collector" = true
      · simp [h1, h2, h3]
      · simp [h1, h2, h3]

/-- C10, as stated, fails: with `CYCLE_INTERVAL=0` the value parses as the
integer 0 and `loadConfig` returns it as the cycle interval, which is not
positive; `CYCLE_INTERVAL=-5` likewise yields -5. -/
theorem zero_interval_counterexample :
    Atoi "0" = some 0 ∧
    (loadConfig (fun name => if name = "CYCLE_INTERVAL" then "0" else "")).CycleInterval = 0 ∧
    (loadConfig (fun name => if name = "CYCLE_INTERVAL" then "-5" else "")).CycleInterval = -5 := by
  refine ⟨by decide, by decide, by decide⟩

/-- C10, amended: an unset or empty `CYCLE_INTERVAL`, a value that is not a
decimal integer and an integer outside the range of a 64-bit `int` yield the
default 10; an integer within that range is returned as given, whether
positive or not. So the cycle interval is positive exactly when the value is
of the former kind or a positive integer within the range. Likewise
`METRICS_PORT` yields the default port 8080 or the integer given. -/
theorem loadConfig_spec (getenv : String → String) :
    (getenv "CYCLE_INTERVAL" = "" → (loadConfig getenv).CycleInterval = 10) ∧
    (∀ n, Denotes (getenv "CYCLE_INTERVAL") n → -(2 ^ 63) ≤ n → n < 2 ^ 63 →
      (loadConfig getenv).CycleInterval = n) ∧
    ((∀ n, Denotes (getenv "CYCLE_INTERVAL") n → n < -(2 ^ 63) ∨ 2 ^ 63 ≤ n) →
      (loadConfig getenv).CycleInterval = 10) ∧
    (0 < (loadConfig getenv).CycleInterval ↔
      (∀ n, Denotes (getenv "CYCLE_INTERVAL") n → n < -(2 ^ 63) ∨ 2 ^ 63 ≤ n) ∨
        ∃ n, Denotes (getenv "CYCLE_INTERVAL") n ∧ 0 < n ∧ n < 2 ^ 63) ∧
    (getenv "METRICS_PORT" = "" → (loadConfig getenv).Port = 8080) ∧
    (∀ n, Denotes (getenv "METRICS_PORT") n → -(2 ^ 63) ≤ n → n < 2 ^ 63 →
      (loadConfig getenv).Port = n) ∧
    ((∀ n, Denotes (getenv "METRICS_PORT") n → n < -(2 ^ 63) ∨ 2 ^ 63 ≤ n) →
      (loadConfig getenv).Port = 8080) := by
  have hc := loadConfig_interval getenv
  have hp := loadConfig_port getenv
  obtain ⟨c1, c2⟩ := getD_Atoi (getenv "CYCLE_INTERVAL") 10
  obtain ⟨p1, p2⟩ := getD_Atoi (getenv "METRICS_PORT") 8080
  refine ⟨?_, ?_, ?_, ?_, ?_, ?_, ?_⟩
  · intro he
    rw [hc, if_pos he]
  · intro n hden hlo hhi
    rw [hc]
    exact c1 n hden hlo hhi
  · intro hout
    rw [hc]
    exact c2 hout
  · constructor
    · intro hpos
      by_cases hout : ∀ n, Denotes (getenv "CYCLE_INTERVAL") n → n < -(2 ^ 63) ∨ 2 ^ 63 ≤ n
      · exact Or.inl hout
      · right
        push_neg at hout
        obtain ⟨n, hden, hlo, hhi⟩ := hout
        have hv : (loadConfig getenv).CycleInterval = n := by
          rw [hc]
          exact c1 n hden hlo hhi
        rw [hv] at hpos
        exact ⟨n, hden, hpos, hhi⟩
    · rintro (hout | ⟨n, hden, hpos, hhi⟩)
      · rw [hc, c2 hout]
        norm_num
      · rw [hc, c1 n hden (by omega) hhi]
        exact hpos
  · intro he
    rw [hp, if_pos he]
  · intro n hden hlo hhi
    rw [hp]
    exact p1 n hden hlo hhi
  · intro hout
    rw [hp]
    exact p2 hout

/-- The fallback of `loadConfig` on integers that do not fit a 64-bit `int`,
and a positive integer returned as given. -/
theorem loadConfig_examples :
    (loadConfig (fun name =>
      if name = "CYCLE_INTERVAL" then "-9223372036854775809" else "")).CycleInterval = 10 ∧
    (loadConfig (fun name =>
      if name = "CYCLE_INTERVAL" then "9223372036854775808" else "")).CycleInterval = 10 ∧
    (loadConfig (fun name =>
      if name = "CYCLE_INTERVAL" then "30" else "")).CycleInterval = 30 ∧
    (loadConfig (fun name =>
      if name = "CYCLE_INTERVAL" then "abc" else "")).CycleInterval = 10 := by
  refine ⟨by decide, by decide, by decide, by decide⟩

/-- C11: every delta the collection code adds to a counter is non-negative,
whatever the random source returns. `rand.Float64()` lies in `[0, 1)`; the
per-file count is the `float64` product of that value and 10 for a named
service, and 5 for a raw directory, non-negative before and after rounding; an
error-counter increment is 1 and each cycle adds exactly 1 to the cycle
counter. Hence on any sequence of events the history grows only
by writes that the counter does not reject, and the value of every counter
series never decreases, from one cycle to the next and over a whole run. -/
theorem counter_deltas_nonnegative (w : World) (s : State) :
    (0 ≤ (randFloat64 w s).1 ∧ (randFloat64 w s).1 < 1) ∧
    (∀ service info,
      (processServiceFile w service info s).ops =
        s.ops ++ [.gaugeSet logFileSizeBytes [service, info.name] (float64OfInt info.size),
          .counterAdd logsCollectedTotal
            [service, levels.getD (w.rand (s.randPos + 1) % 4) ""]
            (roundFloat64 ((randFloat64 w s).1 * 10))] ∧
      0 ≤ (randFloat64 w s).1 * 10 ∧ 0 ≤ roundFloat64 ((randFloat64 w s).1 * 10)) ∧
    (∀ path info,
      (processDirectoryFile w path info s).ops =
        s.ops ++ [.gaugeSet logFileSizeBytes [determineServiceFromPath path, info.name]
            (float64OfInt info.size),
          .counterAdd logsCollectedTotal [determineServiceFromPath path, "info"]
            (roundFloat64 ((randFloat64 w s).1 * 5))] ∧
      0 ≤ (randFloat64 w s).1 * 5 ∧ 0 ≤ roundFloat64 ((randFloat64 w s).1 * 5)) ∧
    (∀ service errorType,
      (RecordLogError service errorType s).ops =
        s.ops ++ [.counterAdd logErrorsTotal [service, errorType] 1]) ∧
    counterValue myCounter [] (cycle w s).2.ops = counterValue myCounter [] s.ops + 1 ∧
    (∀ events, ∃ extra,
      (schedulerLoop w events s).2.ops = s.ops ++ extra ∧
      ∀ op ∈ extra, op.rejected = false) ∧
    (∀ events name labels,
      counterValue name labels s.ops ≤
        counterValue name labels (schedulerLoop w events s).2.ops) ∧
    (∀ n name labels,
      counterValue name labels ((onTick w)^[n] s).ops ≤
        counterValue name labels ((onTick w)^[n + 1] s).ops) := by
  have hr := randFloat64_range w s
  refine ⟨hr, ?_, ?_, ?_, counterValue_cycle w s, ?_, ?_, ?_⟩
  · intro service info
    refine ⟨?_, mul_nonneg hr.1 (by norm_num),
      roundFloat64_nonneg _ (mul_nonneg hr.1 (by norm_num))⟩
    simp [processServiceFile, UpdateLogFileSize, RecordLogCollection, State.record,
      randFloat64, randIntn, levels]
  · intro path info
    refine ⟨?_, mul_nonneg hr.1 (by norm_num),
      roundFloat64_nonneg _ (mul_nonneg hr.1 (by norm_num))⟩
    simp [processDirectoryFile, UpdateLogFileSize, RecordLogCollection, State.record,
      randFloat64]
  · intro service errorType
    rfl
  · intro events
    exact schedulerLoop_grows w events s
  · intro events name labels
    exact counterValue_mono (schedulerLoop_grows w events s) name labels
  · intro n name labels
    rw [Function.iterate_succ_apply']
    exact counterValue_mono (onTick_grows w _) name labels

end Snaproom
